import Mathlib

/-!
Verification of the nand2tetris grading engine (`grading_engine.py`, `config.py`).

The Python source is shallowly embedded: money-like point values become exact
rationals (`ℚ`) with `round(x, 2)` modelled by `round2`, Python strings become
Lean `String`s (in Lean 4.14 a `String` is a wrapped `List Char`, so the
Python string operations are transcribed as list programs), dictionaries
become association lists with Python-dict update/lookup semantics, and the
filesystem / subprocess interactions of one grading run are supplied by an
oracle environment (`ChipEnv`, `GradeEnv`).  Temporary-directory creation and
removal are recorded as an explicit event trace (`FxEvent`), with `finally`
blocks of the source translated to trace events emitted on every exit path of
the corresponding scope.
-/

namespace Py

/-- ASCII lowering of a string, char by char (Python `str.lower`). -/
def lower (s : String) : String := ⟨s.data.map Char.toLower⟩

/-- Drop leading and trailing whitespace from a char list (Python `str.strip`). -/
def stripL (cs : List Char) : List Char :=
  ((cs.dropWhile Char.isWhitespace).reverse.dropWhile Char.isWhitespace).reverse

/-- Python `str.strip`. -/
def strip (s : String) : String := ⟨stripL s.data⟩

/-- Does `cs` start with `pre`? -/
def startsWithL : List Char → List Char → Bool
  | [], _ => true
  | _ :: _, [] => false
  | a :: as, b :: bs => a = b && startsWithL as bs

/-- Does `hay` contain `needle` as a contiguous substring (Python `needle in hay`)? -/
def containsL (hay needle : List Char) : Bool :=
  startsWithL needle hay ||
    match hay with
    | [] => false
    | _ :: t => containsL t needle

/-- Python `needle in hay` on strings. -/
def containsStr (hay needle : String) : Bool := containsL hay.data needle.data

/-- Does `cs` end with `suf`? -/
def endsWithL (cs suf : List Char) : Bool := startsWithL suf.reverse cs.reverse

/-- Python `str.split()` (split on whitespace runs, dropping empties):
worker with accumulator for the word currently being read. -/
def wordsAux : List Char → List Char → List String
  | [], acc => if acc.isEmpty then [] else [⟨acc.reverse⟩]
  | c :: cs, acc =>
    if c.isWhitespace then
      if acc.isEmpty then wordsAux cs [] else ⟨acc.reverse⟩ :: wordsAux cs []
    else wordsAux cs (c :: acc)

/-- Python `str.split()` with no argument. -/
def words (s : String) : List String := wordsAux s.data []

/-- Python `str.split(sep)` for a one-character separator. -/
def splitChar (sep : Char) : List Char → List (List Char)
  | [] => [[]]
  | c :: cs =>
    if c = sep then [] :: splitChar sep cs
    else
      match splitChar sep cs with
      | [] => [[c]]
      | w :: ws => (c :: w) :: ws

/-- Python `raw.split(c)` on strings. -/
def splitStr (sep : Char) (s : String) : List String :=
  (splitChar sep s.data).map fun cs => ⟨cs⟩

/-- Python `s[:n]` on strings (also used for `str(e)[:150]` truncation). -/
def take (s : String) (n : ℕ) : String := ⟨s.data.take n⟩

/-- Python `s[:-n]` on strings. -/
def dropRight (s : String) (n : ℕ) : String := ⟨s.data.take (s.data.length - n)⟩

/-- Python `sep.join(parts)`. -/
def joinWith (sep : String) : List String → String
  | [] => ""
  | [x] => x
  | x :: xs => x ++ sep ++ joinWith sep xs

end Py

/-- Python `round(x, 2)` on an exact rational (ties behave as in `round`;
no claim in this development depends on tie direction, and the same
rounding function is used on both sides of every equation). -/
def round2 (q : ℚ) : ℚ := (round (q * 100) : ℚ) / 100

/-- Python `round(x, 1)`. -/
def round1 (q : ℚ) : ℚ := (round (q * 10) : ℚ) / 10

/-- Python dict membership for an association list. -/
def dictMem (d : List (String × String)) (k : String) : Bool :=
  (d.lookup k).isSome

/-- Python dict assignment `d[k] = v`: replace in place if the key is
present, otherwise append at the end (insertion order preserved). -/
def dictInsert (d : List (String × String)) (k : String) (v : String) :
    List (String × String) :=
  match d with
  | [] => [(k, v)]
  | (k', v') :: rest => if k' = k then (k, v) :: rest else (k', v') :: dictInsert rest k v

/-- Lookup in a Python dict built by a comprehension `{key kv: val kv for kv in l}`:
the LAST entry of `l` producing a given key wins. -/
def comprehensionLookup (entries : List (String × (String × String))) (key : String) :
    Option (String × String) :=
  ((entries.filter fun e => e.1 == key).getLast?).map Prod.snd

-- ── Data model (`grading_engine.py` dataclasses) ─────────────

/-- `FileMatch` dataclass. -/
structure FileMatch where
  expected_name : String
  actual_filename : String
  match_type : String
  issue : String := ""
  deriving Repr, DecidableEq

/-- `ZipNaming` dataclass. -/
structure ZipNaming where
  original_filename : String
  is_correct : Bool
  expected_pattern : String := ""
  issue : String := ""
  deriving Repr, DecidableEq

/-- `ChipResult` dataclass. -/
structure ChipResult where
  name : String
  passed : Bool
  points : ℚ
  max_points : ℚ
  error_type : String := ""
  error_msg : String := ""
  fail_line : ℕ := 0
  expected : String := ""
  actual : String := ""
  total_tests : ℕ := 0
  passed_tests : ℕ := 0
  deriving Repr, DecidableEq

/-- `GradingResult` dataclass (the `zip_naming` field defaults to `None`
in the source; here it is an `Option`). -/
structure GradingResult where
  student_name : String
  user_id : ℕ
  project_num : ℕ
  chips : List ChipResult := []
  total_earned : ℚ := 0
  total_possible : ℚ := 0
  warnings : List String := []
  file_matches : List FileMatch := []
  extra_files : List String := []
  zip_naming : Option ZipNaming := none
  deriving Repr, DecidableEq

/-- Python division, which raises `ZeroDivisionError` on a zero denominator. -/
def pyDiv (a b : ℚ) : Except String ℚ :=
  if b = 0 then Except.error "ZeroDivisionError" else Except.ok (a / b)

/-- `GradingResult.percentage` property:
`round(self.total_earned / self.total_possible * 100, 1) if self.total_possible else 0.0`.
The guard is Python truthiness of the float `total_possible` (zero is falsy). -/
def GradingResult.percentage (r : GradingResult) : Except String ℚ :=
  if r.total_possible ≠ 0 then
    (pyDiv r.total_earned r.total_possible).map fun q => round1 (q * 100)
  else Except.ok 0

-- ── Configuration (`config.py`) ──────────────────────────────

/-- One entry of the `PROJECTS` table, with the fields the grading engine
reads (paths to the simulator and test files are not modelled; the oracle
environment answers existence queries about them). -/
structure Project where
  number : ℕ
  file_ext : String
  zip_pattern : String
  chips : List (String × ℚ)
  deps : List (String × List String)
  deriving Repr, DecidableEq

/-- `PROJECTS[1]` from `config.py`. -/
def project1 : Project :=
  { number := 1, file_ext := ".hdl", zip_pattern := "HW1_Gates_\\w+",
    chips := [("Not", 65/100), ("And", 65/100), ("Or", 65/100), ("Xor", 65/100),
              ("Mux", 65/100), ("DMux", 65/100), ("Not16", 65/100), ("And16", 65/100),
              ("Or16", 65/100), ("Mux16", 65/100), ("Or8Way", 70/100),
              ("Mux4Way16", 65/100), ("Mux8Way16", 75/100), ("DMux4Way", 65/100),
              ("DMux8Way", 75/100)],
    deps := [("Not", []), ("And", ["Not"]), ("Or", ["Not"]),
             ("Xor", ["Not", "And", "Or"]), ("Mux", ["Not", "And", "Or"]),
             ("DMux", ["Not", "And"]), ("Not16", ["Not"]), ("And16", ["And"]),
             ("Or16", ["Or"]), ("Mux16", ["Mux"]), ("Or8Way", ["Or"]),
             ("Mux4Way16", ["Mux16"]), ("Mux8Way16", ["Mux4Way16", "Mux16"]),
             ("DMux4Way", ["DMux"]), ("DMux8Way", ["DMux4Way", "DMux"])] }

/-- `PROJECTS[2]` from `config.py`. -/
def project2 : Project :=
  { number := 2, file_ext := ".hdl", zip_pattern := "HW2_ALU_\\w+",
    chips := [("HalfAdder", 80/100), ("FullAdder", 80/100), ("Add16", 80/100),
              ("Inc16", 80/100), ("ALU", 3), ("ALU-nostat", 380/100)],
    deps := [("HalfAdder", []), ("FullAdder", ["HalfAdder"]),
             ("Add16", ["HalfAdder", "FullAdder"]), ("Inc16", ["Add16"]),
             ("ALU", ["Add16", "Inc16"]), ("ALU-nostat", ["Add16", "Inc16"])] }

/-- `PROJECTS[3]` from `config.py`. -/
def project3 : Project :=
  { number := 3, file_ext := ".hdl", zip_pattern := "HW3_Memory_\\w+",
    chips := [("Bit", 1), ("Register", 1), ("RAM8", 150/100), ("RAM64", 150/100),
              ("RAM512", 150/100), ("RAM4K", 150/100), ("RAM16K", 1), ("PC", 1)],
    deps := [("Bit", []), ("Register", ["Bit"]), ("RAM8", ["Register"]),
             ("RAM64", ["RAM8"]), ("RAM512", ["RAM64"]), ("RAM4K", ["RAM512"]),
             ("RAM16K", ["RAM4K"]), ("PC", ["Register"])] }

/-- `PROJECTS[4]` from `config.py`. -/
def project4 : Project :=
  { number := 4, file_ext := ".asm", zip_pattern := "HW4_Assembly_\\w+",
    chips := [("Mult", 5), ("Fill", 5)],
    deps := [("Mult", []), ("Fill", [])] }

/-- `PROJECTS[5]` from `config.py`. -/
def project5 : Project :=
  { number := 5, file_ext := ".hdl", zip_pattern := "HW5_Computer_\\w+",
    chips := [("Memory", 3), ("CPU", 4), ("Computer", 3)],
    deps := [("Memory", []), ("CPU", []), ("Computer", ["Memory", "CPU"])] }

/-- The `PROJECTS` table keyed by project number. -/
def PROJECTS : List (ℕ × Project) :=
  [(1, project1), (2, project2), (3, project3), (4, project4), (5, project5)]

/-- `ACTIVE_PROJECT` (the source reads it from the environment with
default `"1"`; the default is modelled). -/
def ACTIVE_PROJECT : ℕ := 1

/-- `get_project`: `num = project_num or ACTIVE_PROJECT` (Python `or`, so both
`None` and `0` fall back to the active project), raising `ValueError` for an
undefined project.  The computed fields of the source (`chip_names`,
`chip_points`, `total_points`) are derived below from the returned `Project`. -/
def getProject (projectNum : Option ℕ) : Except String Project :=
  let num := match projectNum with
    | some n => if n = 0 then ACTIVE_PROJECT else n
    | none => ACTIVE_PROJECT
  match PROJECTS.lookup num with
  | some p => Except.ok p
  | none => Except.error ("Project " ++ toString num ++ " not defined")

/-- `proj["chip_names"]`. -/
def Project.chipNames (p : Project) : List String := p.chips.map Prod.fst

/-- `proj["chip_points"].get(chip, 1.0)` (the only way `chip_points` is read). -/
def Project.chipPts (p : Project) (c : String) : ℚ := (p.chips.lookup c).getD 1

/-- `proj["total_points"] = round(sum(c[1] for c in proj["chips"]), 2)`. -/
def Project.totalPoints (p : Project) : ℚ := round2 (p.chips.map Prod.snd).sum

/-- `proj.get("deps", {}).get(name, [])`. -/
def Project.depsOf (p : Project) (c : String) : List String :=
  (p.deps.lookup c).getD []

-- ── Scoring engine (`_partial_credit`) ───────────────────────

/-- The loop of `_partial_credit` (`for i in range(1, len(cmp))`), translated
with the list of comparison lines from index `i` on, the output lines from the
same index on, and the running `passed`, `fl`, `fe`, `fa` accumulators.  The
source records a first mismatch only while the sentinel `fl == 0` holds. -/
def pcLoop : List String → List String → ℕ → ℕ → ℕ → String → String →
    ℕ × ℕ × String × String
  | [], _, _, passed, fl, fe, fa => (passed, fl, fe, fa)
  | c :: cs, os, i, passed, fl, fe, fa =>
    let ct := Py.strip c
    let o := Py.strip (os.headD "")
    if ct = o then pcLoop cs os.tail (i + 1) (passed + 1) fl fe fa
    else if fl = 0 then pcLoop cs os.tail (i + 1) passed i ct o
    else pcLoop cs os.tail (i + 1) passed fl fe fa

/-- `_partial_credit(sandbox, chip, max_pts)`.  The two trace files are given
as `Option (List String)`: `none` when the file is missing (or unreadable,
which the source treats the same way), otherwise the `splitlines` list.
Returns `(pts, passed, total, fl, fe, fa)`. -/
def partialCredit (cmpLines outLines : Option (List String)) (maxPts : ℚ) :
    ℚ × ℕ × ℕ × ℕ × String × String :=
  match cmpLines, outLines with
  | some cmp, some out =>
    if cmp.length < 2 then (0, 0, 0, 0, "", "")
    else
      let total := cmp.length - 1
      let r := pcLoop (cmp.drop 1) (out.drop 1) 1 0 0 "" ""
      let pts := if total ≠ 0 then round2 (maxPts * r.1 / total) else 0
      (pts, r.1, total, r.2.1, r.2.2.1, r.2.2.2)
  | _, _ => (0, 0, 0, 0, "", "")

/-- Line `i` of a trace, as the source's loop reads it:
in range gives the line, out of range gives `""`. -/
def lineAt (l : List String) (i : ℕ) : String := (l.get? i).getD ""

/-- Line `i` of the comparison trace matches line `i` of the output trace
verbatim after trimming. -/
def lineMatches (cmp out : List String) (i : ℕ) : Bool :=
  Py.strip (lineAt cmp i) = Py.strip (lineAt out i)

lemma headD_drop (l : List String) : ∀ i : ℕ, (l.drop i).headD "" = lineAt l i := by
  induction l with
  | nil => intro i; cases i <;> rfl
  | cons a t ih =>
    intro i
    cases i with
    | zero => rfl
    | succ j => exact ih j

lemma tail_drop_succ (l : List String) : ∀ i : ℕ, (l.drop i).tail = l.drop (i + 1) := by
  induction l with
  | nil => intro i; cases i <;> rfl
  | cons a t ih =>
    intro i
    cases i with
    | zero => rfl
    | succ j => exact ih j

lemma drop_cons_lineAt (l : List String) : ∀ i : ℕ, i < l.length →
    l.drop i = lineAt l i :: l.drop (i + 1) := by
  induction l with
  | nil => intro i h; simp at h
  | cons a t ih =>
    intro i h
    cases i with
    | zero => rfl
    | succ j => simpa [lineAt] using ih j (by simpa using h)

lemma pcLoop_frozen (C O : List String) : ∀ (n i p : ℕ) (f : ℕ) (e a : String),
    i + n = C.length → f ≠ 0 →
    pcLoop (C.drop i) (O.drop i) i p f e a =
      (p + (List.range' i n).countP (fun j => lineMatches C O j), f, e, a) := by
  intro n
  induction n with
  | zero =>
    intro i p f e a hlen _
    have hd : C.drop i = [] := List.drop_eq_nil_of_le (by omega)
    rw [hd]
    simp [pcLoop, List.range']
  | succ m ih =>
    intro i p f e a hlen hf
    have hi : i < C.length := by omega
    rw [drop_cons_lineAt C i hi, List.range'_succ]
    simp only [pcLoop, headD_drop, tail_drop_succ]
    by_cases hm : Py.strip (lineAt C i) = Py.strip (lineAt O i)
    · rw [if_pos hm, ih (i + 1) (p + 1) f e a (by omega) hf]
      have hLM : lineMatches C O i = true := by simp [lineMatches, hm]
      simp [List.countP_cons, hLM]
      omega
    · rw [if_neg hm, if_neg hf, ih (i + 1) p f e a (by omega) hf]
      have hLM : lineMatches C O i = false := by simp [lineMatches, hm]
      simp [List.countP_cons, hLM]

lemma pcLoop_run (C O : List String) : ∀ (n i p : ℕ), 1 ≤ i → i + n = C.length →
    pcLoop (C.drop i) (O.drop i) i p 0 "" "" =
      (p + (List.range' i n).countP (fun j => lineMatches C O j),
        match (List.range' i n).find? (fun j => !lineMatches C O j) with
        | some j => (j, Py.strip (lineAt C j), Py.strip (lineAt O j))
        | none => (0, "", "")) := by
  intro n
  induction n with
  | zero =>
    intro i p _ hlen
    have hd : C.drop i = [] := List.drop_eq_nil_of_le (by omega)
    rw [hd]
    simp [pcLoop, List.range']
  | succ m ih =>
    intro i p hi1 hlen
    have hi : i < C.length := by omega
    rw [drop_cons_lineAt C i hi, List.range'_succ]
    simp only [pcLoop, headD_drop, tail_drop_succ]
    by_cases hm : Py.strip (lineAt C i) = Py.strip (lineAt O i)
    · rw [if_pos hm, ih (i + 1) (p + 1) (by omega) (by omega)]
      have hLM : lineMatches C O i = true := by simp [lineMatches, hm]
      simp [List.countP_cons, List.find?, hLM]
      omega
    · rw [if_neg hm, if_true,
        pcLoop_frozen C O m (i + 1) p i _ _ (by omega) (by omega)]
      have hLM : lineMatches C O i = false := by simp [lineMatches, hm]
      simp [List.countP_cons, List.find?, hLM]

/-- **C2**: for a comparison trace with at least 2 lines and an existing output
trace, `_partial_credit` skips line 0, compares each later line verbatim after
trimming, returns `points = round(max_points * passed/total, 2)` with
`total = len(cmp) - 1` and `passed` the number of matching line indices,
and records exactly the first mismatching line index with its expected and
actual (trimmed) contents, or `(0, "", "")` when every line matches; if either
trace file is missing (or unreadable) or the comparison trace has fewer than 2
lines, every returned field is zero/empty.  (Given at least 2 lines,
`total ≥ 1`, so the source's `if total else 0` guard is never the zero case.) -/
theorem partial_credit_matches_spec (cmp out : List String) (mx : ℚ)
    (h2 : 2 ≤ cmp.length) :
    partialCredit (some cmp) (some out) mx =
      (round2 (mx * ((List.range' 1 (cmp.length - 1)).countP (lineMatches cmp out) : ℕ) /
          ((cmp.length - 1 : ℕ) : ℚ)),
        (List.range' 1 (cmp.length - 1)).countP (lineMatches cmp out),
        cmp.length - 1,
        match (List.range' 1 (cmp.length - 1)).find? (fun j => !lineMatches cmp out j) with
        | some j => (j, Py.strip (lineAt cmp j), Py.strip (lineAt out j))
        | none => (0, "", "")) ∧
    (∀ o mx', partialCredit none o mx' = (0, 0, 0, 0, "", "")) ∧
    (∀ c mx', partialCredit c none mx' = (0, 0, 0, 0, "", "")) ∧
    (∀ (c o : List String) (mx' : ℚ), c.length < 2 →
      partialCredit (some c) (some o) mx' = (0, 0, 0, 0, "", "")) := by
  refine ⟨?_, ?_, ?_, ?_⟩
  · have hrun := pcLoop_run cmp out (cmp.length - 1) 1 0 le_rfl (by omega)
    have hne : ¬ cmp.length < 2 := by omega
    have ht : cmp.length - 1 ≠ 0 := by omega
    rw [List.drop_one, List.drop_one] at hrun
    cases hf : (List.range' 1 (cmp.length - 1)).find? (fun j => !lineMatches cmp out j) with
    | none => simp [partialCredit, hne, hrun, hf, ht]
    | some j => simp [partialCredit, hne, hrun, hf, ht]
  · intro o mx'
    simp [partialCredit]
  · intro c mx'
    cases c <;> simp [partialCredit]
  · intro c o mx' h
    simp [partialCredit, h]

/-- Witness for C2: the worked example of the spec — a header plus 4 data
lines of which 3 match and line 3 differs, max points 0.80, giving
points 0.60, 3/4 passed, first failure recorded at line 3. -/
theorem partial_credit_matches_spec_witness :
    2 ≤ (["ha", "r1", "r2", "r3", "r4"] : List String).length ∧
    partialCredit (some ["ha", "r1", "r2", "r3", "r4"])
        (some ["ha", "r1", "r2", "XX", "r4"]) (8/10) =
      (6/10, 3, 4, 3, "r3", "XX") := by
  refine ⟨by decide, ?_⟩
  have h := (partial_credit_matches_spec ["ha", "r1", "r2", "r3", "r4"]
    ["ha", "r1", "r2", "XX", "r4"] (8/10) (by decide)).1
  rw [h]
  have hc : (List.range' 1 ((["ha", "r1", "r2", "r3", "r4"] : List String).length - 1)).countP
      (lineMatches ["ha", "r1", "r2", "r3", "r4"] ["ha", "r1", "r2", "XX", "r4"]) = 3 := by
    decide
  have hf : (List.range' 1 ((["ha", "r1", "r2", "r3", "r4"] : List String).length - 1)).find?
      (fun j => !lineMatches ["ha", "r1", "r2", "r3", "r4"] ["ha", "r1", "r2", "XX", "r4"] j) =
      some 3 := by
    decide
  rw [hc, hf]
  have hs3 : Py.strip (lineAt ["ha", "r1", "r2", "r3", "r4"] 3) = "r3" := by decide
  have hsX : Py.strip (lineAt ["ha", "r1", "r2", "XX", "r4"] 3) = "XX" := by decide
  simp only [List.length_cons, List.length_nil]
  norm_num [hs3, hsX, round2, round_eq]

/-- **C10**: `GradingResult.percentage` never raises `ZeroDivisionError`:
for `total_possible = 0` (falsy in the source's guard) it returns `0.0`,
and for nonzero `total_possible` it returns
`round(total_earned / total_possible * 100, 1)`. -/
theorem percentage_never_divides_by_zero (r : GradingResult) :
    r.percentage = Except.ok
      (if r.total_possible = 0 then 0
       else round1 (r.total_earned / r.total_possible * 100)) := by
  unfold GradingResult.percentage pyDiv
  by_cases h : r.total_possible = 0 <;> simp [h, Except.map]

-- ── Name normalizer (`_normalize`) ───────────────────────────

/-- Try to match the regex `\s*\(\d+\)\s*` at the head of the list;
on success return the remainder after the match. -/
def tryParen (cs : List Char) : Option (List Char) :=
  match cs.dropWhile Char.isWhitespace with
  | '(' :: r2 =>
    if (r2.takeWhile Char.isDigit).isEmpty then none
    else
      match r2.dropWhile Char.isDigit with
      | ')' :: r4 => some (r4.dropWhile Char.isWhitespace)
      | _ => none
  | _ => none

/-- Try to match the regex `\s*copy\s*\d*` (ignore-case) at the head of the
list; on success return the remainder after the match. -/
def tryCopy (cs : List Char) : Option (List Char) :=
  match cs.dropWhile Char.isWhitespace with
  | c1 :: c2 :: c3 :: c4 :: r2 =>
    if c1.toLower = 'c' ∧ c2.toLower = 'o' ∧ c3.toLower = 'p' ∧ c4.toLower = 'y' then
      some ((r2.dropWhile Char.isWhitespace).dropWhile Char.isDigit)
    else none
  | _ => none

/-- `re.sub` of a pattern matched by `try?`: scan left to right, replacing
each non-overlapping match by nothing.  The fuel argument starts at the list
length; each match consumes at least three (paren) or four (copy) characters,
so the fuel never runs out. -/
def reSubAux (try? : List Char → Option (List Char)) : ℕ → List Char → List Char
  | 0, cs => cs
  | _ + 1, [] => []
  | fuel + 1, c :: cs =>
    match try? (c :: cs) with
    | some rest => reSubAux try? fuel rest
    | none => c :: reSubAux try? fuel cs

/-- Strip a (lower-case, dot-initial) suffix case-insensitively
(`re.sub(r'\.hdl$', '', name, flags=re.IGNORECASE)`). -/
def stripSuffixCI (cs suf : List Char) : List Char :=
  if Py.startsWithL suf.reverse ((cs.map Char.toLower).reverse) then
    cs.take (cs.length - suf.length)
  else cs

/-- `_normalize` (named `normalizeName` here; `normalize` is taken by Mathlib): strip, remove `(\d+)` download counters, remove `copy N`
suffixes, remove whitespace/underscore/hyphen, strip `.hdl`/`.asm`, lower. -/
def normalizeName (name : String) : String :=
  let cs := Py.stripL name.data
  let cs := reSubAux tryParen cs.length cs
  let cs := reSubAux tryCopy cs.length cs
  let cs := cs.filter fun c => ! (c.isWhitespace || c == '_' || c == '-')
  let cs := stripSuffixCI cs ".hdl".data
  let cs := stripSuffixCI cs ".asm".data
  ⟨cs.map Char.toLower⟩

-- ── File matcher (`_match_files`) ────────────────────────────

/-- The matcher's mutable state: the `matched` dict, the accumulated
`matches` list, the `used` set (as the list of names in insertion order) and
the `remaining` list. -/
structure MatchSt where
  matched : List (String × String)
  fmatches : List FileMatch
  used : List String
  remaining : List String
  deriving Repr, DecidableEq

/-- Pass 1 (exact): `for exp in expected_names: if exp in found: ...`. -/
def pass1 (found : List (String × String)) (ext : String) :
    List String → (List (String × String) × List FileMatch × List String) →
    List (String × String) × List FileMatch × List String
  | [], st => st
  | exp :: rest, (matched, fms, used) =>
    match found.lookup exp with
    | some path =>
      pass1 found ext rest
        (dictInsert matched exp path,
          fms ++ [{ expected_name := exp, actual_filename := exp ++ ext,
                    match_type := "exact" }],
          used ++ [exp])
    | none => pass1 found ext rest (matched, fms, used)

/-- Pass 2 loop body over the snapshot of `remaining`; `found_lower` is fixed
before the loop.  An expected name that matches is consumed (removed from
`remaining`), the rest are kept in order. -/
def pass2Go (foundLower : List (String × (String × String))) (ext : String) :
    List String → MatchSt → MatchSt
  | [], st => st
  | exp :: rest, st =>
    match comprehensionLookup foundLower (Py.lower exp) with
    | some (orig, path) =>
      pass2Go foundLower ext rest
        { st with
          matched := dictInsert st.matched exp path,
          fmatches := st.fmatches ++ [⟨exp, orig ++ ext, "case_fix",
            "Named '" ++ orig ++ ext ++ "' instead of '" ++ exp ++ ext ++ "'"⟩],
          used := st.used ++ [orig] }
    | none => pass2Go foundLower ext rest { st with remaining := st.remaining ++ [exp] }

/-- Pass 2 (case insensitive): `found_lower` is the dict comprehension
`{k.lower(): (k, v) for k, v in found.items() if k not in used}`, built once
from the `used` set as it stands after pass 1 and *not* updated while the
pass consumes files. -/
def pass2 (found : List (String × String)) (ext : String) (st : MatchSt) : MatchSt :=
  let foundLower := (found.filter fun kv => ! st.used.contains kv.1).map
    fun kv => (Py.lower kv.1, kv)
  pass2Go foundLower ext st.remaining { st with remaining := [] }

/-- Pass 3 loop body; unlike pass 2 the consumption check `orig not in used`
is made against the *current* `used` set. -/
def pass3Go (foundNorm : List (String × (String × String))) (ext : String) :
    List String → MatchSt → MatchSt
  | [], st => st
  | exp :: rest, st =>
    match comprehensionLookup foundNorm (normalizeName exp) with
    | some (orig, path) =>
      if st.used.contains orig then
        pass3Go foundNorm ext rest { st with remaining := st.remaining ++ [exp] }
      else
        pass3Go foundNorm ext rest
          { st with
            matched := dictInsert st.matched exp path,
            fmatches := st.fmatches ++ [⟨exp, orig ++ ext, "fuzzy",
              "Named '" ++ orig ++ ext ++ "' -- assumed to be '" ++ exp ++ ext ++ "'"⟩],
            used := st.used ++ [orig] }
    | none => pass3Go foundNorm ext rest { st with remaining := st.remaining ++ [exp] }

/-- Pass 3 (normalized): `found_norm` maps `_normalize(name)` to `(name, path)`
for every found file (built once in the source, before pass 1; it is only
read here, and on key collisions the last entry wins, as in a dict). -/
def pass3 (found : List (String × String)) (ext : String) (st : MatchSt) : MatchSt :=
  pass3Go (found.map fun kv => (normalizeName kv.1, kv)) ext st.remaining
    { st with remaining := [] }

/-- One iteration of the pass-4 inner candidate loop: skip used names, and
for a candidate where one lowered name contains the other, keep it if its
`len(exp_lower) / max(len(nl), 1)` score strictly beats the best so far. -/
def pass4Step (used : List String) (exp : String)
    (best : Option (String × String) × ℚ) (kv : String × String) :
    Option (String × String) × ℚ :=
  if used.contains kv.1 then best
  else
    let nl := Py.lower kv.1
    if Py.containsStr nl (Py.lower exp) || Py.containsStr (Py.lower exp) nl then
      let score : ℚ := ((Py.lower exp).length : ℚ) / ((max nl.length 1 : ℕ) : ℚ)
      if score > best.2 then (some kv, score) else best
    else best

/-- The inner candidate scan of pass 4 for one expected name: walk
`found.items()` in order.  Returns `(best, best_score)`. -/
def pass4Pick (found : List (String × String)) (used : List String) (exp : String) :
    Option (String × String) × ℚ :=
  found.foldl (pass4Step used exp) (none, 0)

/-- Pass 4 loop body (`if best and best_score > 0.4`). -/
def pass4Go (found : List (String × String)) (ext : String) :
    List String → MatchSt → MatchSt
  | [], st => st
  | exp :: rest, st =>
    match pass4Pick found st.used exp with
    | (some (orig, path), score) =>
      if score > 2/5 then
        pass4Go found ext rest
          { st with
            matched := dictInsert st.matched exp path,
            fmatches := st.fmatches ++ [⟨exp, orig ++ ext, "fuzzy",
              "Named '" ++ orig ++ ext ++ "' -- assumed to be '" ++ exp ++ ext ++ "'"⟩],
            used := st.used ++ [orig] }
      else pass4Go found ext rest { st with remaining := st.remaining ++ [exp] }
    | (none, _) => pass4Go found ext rest { st with remaining := st.remaining ++ [exp] }

/-- Pass 4 (fuzzy substring). -/
def pass4 (found : List (String × String)) (ext : String) (st : MatchSt) : MatchSt :=
  pass4Go found ext st.remaining { st with remaining := [] }

/-- The matcher state after the four passes of `_match_files`. -/
def matchFinalState (found : List (String × String)) (expectedNames : List String)
    (ext : String) : MatchSt :=
  let p1 := pass1 found ext expectedNames ([], [], [])
  let st1 : MatchSt :=
    { matched := p1.1, fmatches := p1.2.1, used := p1.2.2,
      remaining := expectedNames.filter fun n => ! dictMem p1.1 n }
  pass4 found ext (pass3 found ext (pass2 found ext st1))

/-- `_match_files(found, expected_names, file_ext)`:
returns `(matched, matches, extra)`. -/
def matchFiles (found : List (String × String)) (expectedNames : List String)
    (ext : String) :
    List (String × String) × List FileMatch × List String :=
  let st4 := matchFinalState found expectedNames ext
  let fms := st4.fmatches ++ st4.remaining.map fun exp =>
    { expected_name := exp, actual_filename := "", match_type := "not_found",
      issue := "'" ++ exp ++ ext ++ "' not found in submission" }
  let extra := (found.filter fun kv => ! st4.used.contains kv.1).map fun kv => kv.1 ++ ext
  (st4.matched, fms, extra)

-- ── Matcher invariants (for C4) ──────────────────────────────

/-- The actual filenames the matcher has assigned so far: one entry per
consumed found file (every match whose type is not `not_found`). -/
def assignedFiles (fms : List FileMatch) : List String :=
  (fms.filter fun m => m.match_type ≠ "not_found").map fun m => m.actual_filename

lemma assignedFiles_append (a b : List FileMatch) :
    assignedFiles (a ++ b) = assignedFiles a ++ assignedFiles b := by
  simp [assignedFiles]

lemma appendExt_injective (ext : String) :
    Function.Injective fun s : String => s ++ ext := by
  intro a b h
  have hd : a.data ++ ext.data = b.data ++ ext.data := congrArg String.data h
  have h2 := List.append_cancel_right hd
  cases a; cases b; exact congrArg String.mk h2

lemma comprehensionLookup_mem (entries : List (String × (String × String)))
    (key : String) (v : String × String)
    (h : comprehensionLookup entries key = some v) : (key, v) ∈ entries := by
  unfold comprehensionLookup at h
  cases hg : (entries.filter fun e => e.1 == key).getLast? with
  | none => rw [hg] at h; simp at h
  | some e =>
    rw [hg] at h
    simp only [Option.map_some', Option.some.injEq] at h
    have hmem := List.mem_of_mem_getLast? hg
    have hf := List.mem_filter.1 hmem
    have h1 : e.1 = key := by simpa using hf.2
    have : e = (key, v) := by
      cases e; simp_all
    rw [← this]
    exact hf.1

lemma pass2_candidate (found : List (String × String)) (used0 : List String)
    (key orig path : String)
    (h : comprehensionLookup ((found.filter fun kv => ! used0.contains kv.1).map
        fun kv => (Py.lower kv.1, kv)) key = some (orig, path)) :
    Py.lower orig = key ∧ used0.contains orig = false := by
  have hm := comprehensionLookup_mem _ _ _ h
  rw [List.mem_map] at hm
  obtain ⟨kv, hkv, heq⟩ := hm
  have hkv1 : kv = (orig, path) := by
    cases kv; simp_all
  subst hkv1
  have h1 : Py.lower orig = key := by
    have := congrArg Prod.fst heq
    simpa using this
  have hf := List.mem_filter.1 hkv
  refine ⟨h1, ?_⟩
  have := hf.2
  simpa using this

lemma assignedFiles_cons_of_ne (m : FileMatch) (rest : List FileMatch)
    (h : m.match_type ≠ "not_found") :
    assignedFiles (m :: rest) = m.actual_filename :: assignedFiles rest := by
  simp [assignedFiles, h]

lemma assignedFiles_single (m : FileMatch) (h : m.match_type ≠ "not_found") :
    assignedFiles [m] = [m.actual_filename] := by
  simp [assignedFiles, h]

lemma pass1_align (found : List (String × String)) (ext : String) :
    ∀ (exps : List String) (m : List (String × String)) (fms : List FileMatch)
      (u : List String), assignedFiles fms = u.map (· ++ ext) →
      assignedFiles (pass1 found ext exps (m, fms, u)).2.1 =
        ((pass1 found ext exps (m, fms, u)).2.2).map (· ++ ext) := by
  intro exps
  induction exps with
  | nil => intro m fms u h; simpa [pass1] using h
  | cons e rest ih =>
    intro m fms u h
    cases hl : found.lookup e with
    | some path =>
      simp only [pass1, hl]
      apply ih
      rw [assignedFiles_append, List.map_append, h]
      simp [assignedFiles]
    | none =>
      simp only [pass1, hl]
      exact ih m fms u h

lemma pass2Go_align (fl : List (String × (String × String))) (ext : String) :
    ∀ (rem : List String) (st : MatchSt),
      assignedFiles st.fmatches = st.used.map (· ++ ext) →
      assignedFiles (pass2Go fl ext rem st).fmatches =
        ((pass2Go fl ext rem st).used).map (· ++ ext) := by
  intro rem
  induction rem with
  | nil => intro st h; simpa [pass2Go] using h
  | cons e rest ih =>
    intro st h
    cases hl : comprehensionLookup fl (Py.lower e) with
    | some op =>
      obtain ⟨orig, path⟩ := op
      simp only [pass2Go, hl]
      apply ih
      simp only
      rw [assignedFiles_append, List.map_append, h]
      simp [assignedFiles]
    | none =>
      simp only [pass2Go, hl]
      exact ih _ h

lemma pass3Go_align (fn : List (String × (String × String))) (ext : String) :
    ∀ (rem : List String) (st : MatchSt),
      assignedFiles st.fmatches = st.used.map (· ++ ext) →
      assignedFiles (pass3Go fn ext rem st).fmatches =
        ((pass3Go fn ext rem st).used).map (· ++ ext) := by
  intro rem
  induction rem with
  | nil => intro st h; simpa [pass3Go] using h
  | cons e rest ih =>
    intro st h
    cases hl : comprehensionLookup fn (normalizeName e) with
    | some op =>
      obtain ⟨orig, path⟩ := op
      simp only [pass3Go, hl]
      by_cases hu : st.used.contains orig
      · rw [if_pos hu]
        exact ih _ h
      · rw [if_neg hu]
        apply ih
        simp only
        rw [assignedFiles_append, List.map_append, h]
        simp [assignedFiles]
    | none =>
      simp only [pass3Go, hl]
      exact ih _ h

lemma pass4Go_align (found : List (String × String)) (ext : String) :
    ∀ (rem : List String) (st : MatchSt),
      assignedFiles st.fmatches = st.used.map (· ++ ext) →
      assignedFiles (pass4Go found ext rem st).fmatches =
        ((pass4Go found ext rem st).used).map (· ++ ext) := by
  intro rem
  induction rem with
  | nil => intro st h; simpa [pass4Go] using h
  | cons e rest ih =>
    intro st h
    cases hl : pass4Pick found st.used e with
    | mk best score =>
      cases best with
      | some op =>
        obtain ⟨orig, path⟩ := op
        simp only [pass4Go, hl]
        by_cases hs : score > 2/5
        · rw [if_pos hs]
          apply ih
          simp only
          rw [assignedFiles_append, List.map_append, h]
          simp [assignedFiles]
        · rw [if_neg hs]
          exact ih _ h
      | none =>
        simp only [pass4Go, hl]
        exact ih _ h

lemma pass1_used (found : List (String × String)) (ext : String) :
    ∀ (exps : List String) (m : List (String × String)) (fms : List FileMatch)
      (u : List String),
      (pass1 found ext exps (m, fms, u)).2.2 =
        u ++ exps.filter fun e => (found.lookup e).isSome := by
  intro exps
  induction exps with
  | nil => intro m fms u; simp [pass1]
  | cons e rest ih =>
    intro m fms u
    cases hl : found.lookup e with
    | some path =>
      simp only [pass1, hl]
      rw [ih]
      simp [List.filter_cons, hl]
    | none =>
      simp only [pass1, hl]
      rw [ih]
      simp [List.filter_cons, hl]

lemma pass2Go_nodup (found : List (String × String)) (used0 : List String) (ext : String) :
    ∀ (rem : List String) (st : MatchSt),
      st.used.Nodup →
      (∀ o ∈ st.used, used0.contains o = true ∨ Py.lower o ∉ rem.map Py.lower) →
      (rem.map Py.lower).Nodup →
      (pass2Go ((found.filter fun kv => ! used0.contains kv.1).map
          fun kv => (Py.lower kv.1, kv)) ext rem st).used.Nodup := by
  intro rem
  induction rem with
  | nil => intro st h _ _; simpa [pass2Go] using h
  | cons e rest ih =>
    intro st h hinv hnd
    have hnd' : (Py.lower e :: rest.map Py.lower).Nodup := by simpa using hnd
    cases hl : comprehensionLookup ((found.filter fun kv => ! used0.contains kv.1).map
        fun kv => (Py.lower kv.1, kv)) (Py.lower e) with
    | some op =>
      obtain ⟨orig, path⟩ := op
      obtain ⟨hlow, hcont⟩ := pass2_candidate found used0 _ _ _ hl
      simp only [pass2Go, hl]
      apply ih
      · have horig : orig ∉ st.used := by
          intro hmem
          rcases hinv orig hmem with hcase | hcase
          · rw [hcont] at hcase; cases hcase
          · apply hcase
            rw [hlow]
            exact List.mem_map_of_mem Py.lower (List.mem_cons_self e rest)
        simp [List.nodup_append, h, horig]
      · intro o ho
        rcases List.mem_append.1 ho with ho' | ho'
        · rcases hinv o ho' with hcase | hcase
          · exact Or.inl hcase
          · right
            intro hmm
            apply hcase
            rcases List.mem_map.1 hmm with ⟨x, hx, he⟩
            exact List.mem_map.2 ⟨x, List.mem_cons_of_mem e hx, he⟩
        · have ho2 : o = orig := by simpa using ho'
          subst ho2
          right
          rw [hlow]
          exact (List.nodup_cons.1 hnd').1
      · exact (List.nodup_cons.1 hnd').2
    | none =>
      simp only [pass2Go, hl]
      apply ih
      · simpa using h
      · intro o ho
        rcases hinv o (by simpa using ho) with hcase | hcase
        · exact Or.inl hcase
        · right
          intro hmm
          apply hcase
          rcases List.mem_map.1 hmm with ⟨x, hx, he⟩
          exact List.mem_map.2 ⟨x, List.mem_cons_of_mem e hx, he⟩
      · exact (List.nodup_cons.1 hnd').2

lemma pass3Go_nodup (fn : List (String × (String × String))) (ext : String) :
    ∀ (rem : List String) (st : MatchSt), st.used.Nodup →
      (pass3Go fn ext rem st).used.Nodup := by
  intro rem
  induction rem with
  | nil => intro st h; simpa [pass3Go] using h
  | cons e rest ih =>
    intro st h
    cases hl : comprehensionLookup fn (normalizeName e) with
    | some op =>
      obtain ⟨orig, path⟩ := op
      simp only [pass3Go, hl]
      by_cases hu : st.used.contains orig = true
      · rw [if_pos hu]
        exact ih _ (by simpa using h)
      · rw [if_neg hu]
        apply ih
        have horig : orig ∉ st.used := fun hmem => hu (List.elem_iff.2 hmem)
        simp [List.nodup_append, h, horig]
    | none =>
      simp only [pass3Go, hl]
      exact ih _ (by simpa using h)

lemma pass4Step_sound (used : List String) (exp : String)
    (best : Option (String × String) × ℚ) (kv kv' : String × String)
    (hpre : ∀ x, best.1 = some x → used.contains x.1 = false)
    (h : (pass4Step used exp best kv).1 = some kv') :
    used.contains kv'.1 = false := by
  unfold pass4Step at h
  by_cases hu : used.contains kv.1 = true
  · rw [if_pos hu] at h
    exact hpre kv' h
  · rw [if_neg hu] at h
    simp only at h
    by_cases hc : (Py.containsStr (Py.lower kv.1) (Py.lower exp) ||
        Py.containsStr (Py.lower exp) (Py.lower kv.1)) = true
    · rw [if_pos hc] at h
      by_cases hs : ((Py.lower exp).length : ℚ) /
          ((max (Py.lower kv.1).length 1 : ℕ) : ℚ) > best.2
      · rw [if_pos hs] at h
        have hk : kv = kv' := by simpa using h
        rw [← hk]
        simpa using hu
      · rw [if_neg hs] at h
        exact hpre kv' h
    · rw [if_neg hc] at h
      exact hpre kv' h

lemma pass4Pick_fold_sound (used : List String) (exp : String) :
    ∀ (l : List (String × String)) (init : Option (String × String) × ℚ),
      (∀ x, init.1 = some x → used.contains x.1 = false) →
      ∀ kv', (l.foldl (pass4Step used exp) init).1 = some kv' →
        used.contains kv'.1 = false := by
  intro l
  induction l with
  | nil => intro init hpre kv' h; exact hpre kv' h
  | cons a t ih =>
    intro init hpre kv' h
    rw [List.foldl_cons] at h
    exact ih _ (fun x hx => pass4Step_sound used exp init a x hpre hx) kv' h

lemma pass4Pick_sound (found : List (String × String)) (used : List String)
    (exp : String) (kv : String × String)
    (h : (pass4Pick found used exp).1 = some kv) : used.contains kv.1 = false := by
  unfold pass4Pick at h
  exact pass4Pick_fold_sound used exp found (none, 0) (by intro x hx; cases hx) kv h

lemma pass4Go_nodup (found : List (String × String)) (ext : String) :
    ∀ (rem : List String) (st : MatchSt), st.used.Nodup →
      (pass4Go found ext rem st).used.Nodup := by
  intro rem
  induction rem with
  | nil => intro st h; simpa [pass4Go] using h
  | cons e rest ih =>
    intro st h
    cases hl : pass4Pick found st.used e with
    | mk best score =>
      cases best with
      | some op =>
        obtain ⟨orig, path⟩ := op
        simp only [pass4Go, hl]
        by_cases hs : score > 2/5
        · rw [if_pos hs]
          apply ih
          have hcont : st.used.contains orig = false := by
            have := pass4Pick_sound found st.used e (orig, path)
              (by rw [hl])
            simpa using this
          have horig : orig ∉ st.used := by
            intro hmem
            have htr : st.used.contains orig = true := List.elem_iff.2 hmem
            rw [htr] at hcont
            cases hcont
          simp [List.nodup_append, h, horig]
        · rw [if_neg hs]
          exact ih _ (by simpa using h)
      | none =>
        simp only [pass4Go, hl]
        exact ih _ (by simpa using h)

lemma assignedFiles_notFound (rem : List String) (ext : String) :
    assignedFiles (rem.map fun exp =>
      { expected_name := exp, actual_filename := "", match_type := "not_found",
        issue := "'" ++ exp ++ ext ++ "' not found in submission" }) = [] := by
  induction rem with
  | nil => simp [assignedFiles]
  | cons a t ih =>
    rw [List.map_cons, ← List.singleton_append, assignedFiles_append, ih]
    simp [assignedFiles]

lemma matchFinalState_align (found : List (String × String))
    (expectedNames : List String) (ext : String) :
    assignedFiles (matchFinalState found expectedNames ext).fmatches =
      (matchFinalState found expectedNames ext).used.map (· ++ ext) := by
  unfold matchFinalState pass4 pass3 pass2
  apply pass4Go_align
  apply pass3Go_align
  apply pass2Go_align
  apply pass1_align
  simp [assignedFiles]

lemma matchFinalState_nodup (found : List (String × String))
    (expectedNames : List String) (ext : String)
    (hexp : (expectedNames.map Py.lower).Nodup) :
    (matchFinalState found expectedNames ext).used.Nodup := by
  have hbase : expectedNames.Nodup := hexp.of_map
  have hu1 : (pass1 found ext expectedNames ([], [], [])).2.2 =
      expectedNames.filter (fun e => (found.lookup e).isSome) := by
    simpa using pass1_used found ext expectedNames [] [] []
  unfold matchFinalState pass4 pass3 pass2
  apply pass4Go_nodup
  apply pass3Go_nodup
  apply pass2Go_nodup
  · rw [hu1]
    exact ((List.filter_sublist _).nodup hbase)
  · intro o ho
    exact Or.inl (List.elem_iff.2 ho)
  · have hsub : ((expectedNames.filter fun n =>
        ! dictMem (pass1 found ext expectedNames ([], [], [])).1 n).map Py.lower).Sublist
        (expectedNames.map Py.lower) :=
      (List.filter_sublist _).map Py.lower
    exact hsub.nodup hexp

/-- Counterexample to C4 as frozen: with one found file `noT` and expected
names `["Not", "NOT"]` (distinct, but equal ignoring case), pass 2 consumes
`noT` for `Not` and then assigns the same file to `NOT` too, because the
source builds `found_lower` before the pass-2 loop and never removes entries
as files are consumed.  Both matches report the same actual file, and the
matched dict maps both expected names to the same path. -/
theorem match_files_double_assignment :
    ((matchFiles [("noT", "/p")] ["Not", "NOT"] ".hdl").2.1.map
      fun m => (m.expected_name, m.actual_filename, m.match_type)) =
      [("Not", "noT.hdl", "case_fix"), ("NOT", "noT.hdl", "case_fix")] ∧
    (matchFiles [("noT", "/p")] ["Not", "NOT"] ".hdl").1 =
      [("Not", "/p"), ("NOT", "/p")] ∧
    ¬ (assignedFiles (matchFiles [("noT", "/p")] ["Not", "NOT"] ".hdl").2.1).Nodup := by
  decide

/-- **C4** (amended): provided no two expected names coincide after
lowercasing — which holds for every configured component list — a found file
consumed by any pass is never assigned to another expected name in the same
or a later pass (the actual filenames over all non-`not_found` matches are
pairwise distinct), and every found file consumed by no pass appears in the
returned extra-files list. -/
theorem match_files_at_most_one_per_file (found : List (String × String))
    (expectedNames : List String) (ext : String)
    (hexp : (expectedNames.map Py.lower).Nodup) :
    (assignedFiles (matchFiles found expectedNames ext).2.1).Nodup ∧
    ∀ kv ∈ found, kv.1 ++ ext ∉ assignedFiles (matchFiles found expectedNames ext).2.1 →
      kv.1 ++ ext ∈ (matchFiles found expectedNames ext).2.2 := by
  have halign := matchFinalState_align found expectedNames ext
  have hnd := matchFinalState_nodup found expectedNames ext hexp
  have htotal : assignedFiles (matchFiles found expectedNames ext).2.1 =
      (matchFinalState found expectedNames ext).used.map (· ++ ext) := by
    simp only [matchFiles]
    rw [assignedFiles_append, halign, assignedFiles_notFound, List.append_nil]
  constructor
  · rw [htotal]
    exact hnd.map (appendExt_injective ext)
  · intro kv hkv hnot
    rw [htotal] at hnot
    have hused : kv.1 ∉ (matchFinalState found expectedNames ext).used := by
      intro hmem
      exact hnot (List.mem_map_of_mem _ hmem)
    simp only [matchFiles]
    apply List.mem_map.2
    refine ⟨kv, ?_, rfl⟩
    apply List.mem_filter.2
    refine ⟨hkv, ?_⟩
    cases hc : (matchFinalState found expectedNames ext).used.contains kv.1 with
    | false => simp [hc]
    | true => exact absurd (List.elem_iff.1 hc) hused

/-- Witness for the amended C4 at a concrete instance. -/
theorem match_files_at_most_one_per_file_witness :
    ((["Not", "And"].map Py.lower).Nodup) ∧
    ((assignedFiles (matchFiles [("Not", "/p")] ["Not", "And"] ".hdl").2.1).Nodup ∧
    ∀ kv ∈ [("Not", "/p")],
      kv.1 ++ ".hdl" ∉ assignedFiles (matchFiles [("Not", "/p")] ["Not", "And"] ".hdl").2.1 →
      kv.1 ++ ".hdl" ∈ (matchFiles [("Not", "/p")] ["Not", "And"] ".hdl").2.2) :=
  ⟨by decide, match_files_at_most_one_per_file _ _ _ (by decide)⟩

-- ── Pass-4 selection characterization (for C5) ───────────────

/-- A pass-4 candidate for `exp`: an unconsumed found file where one
lowercased name contains the other. -/
def pass4Cand (used : List String) (exp : String) (kv : String × String) : Bool :=
  !used.contains kv.1 &&
    (Py.containsStr (Py.lower kv.1) (Py.lower exp) ||
     Py.containsStr (Py.lower exp) (Py.lower kv.1))

/-- The pass-4 length-ratio score `len(exp_lower) / max(len(nl), 1)`. -/
def pass4Score (exp : String) (kv : String × String) : ℚ :=
  ((Py.lower exp).length : ℚ) / ((max (Py.lower kv.1).length 1 : ℕ) : ℚ)

lemma pass4Step_eq (used : List String) (exp : String)
    (best : Option (String × String) × ℚ) (kv : String × String) :
    pass4Step used exp best kv =
      if pass4Cand used exp kv = true then
        if pass4Score exp kv > best.2 then (some kv, pass4Score exp kv) else best
      else best := by
  unfold pass4Step pass4Cand pass4Score
  by_cases hu : used.contains kv.1 = true
  · have hm : kv.1 ∈ used := List.elem_iff.1 hu
    simp [hm]
  · have hm : kv.1 ∉ used := fun hmm => hu (List.elem_iff.2 hmm)
    simp [hm]

lemma pass4Step_cases (used : List String) (exp : String)
    (best : Option (String × String) × ℚ) (kv : String × String) :
    pass4Step used exp best kv = best ∨
      (pass4Step used exp best kv = (some kv, pass4Score exp kv) ∧
        pass4Cand used exp kv = true ∧ pass4Score exp kv > best.2) := by
  rw [pass4Step_eq]
  by_cases hc : pass4Cand used exp kv = true
  · by_cases hs : pass4Score exp kv > best.2
    · right
      exact ⟨by rw [if_pos hc, if_pos hs], hc, hs⟩
    · left
      rw [if_pos hc, if_neg hs]
  · left
    rw [if_neg hc]

lemma pass4Step_le (used : List String) (exp : String)
    (best : Option (String × String) × ℚ) (kv : String × String) :
    best.2 ≤ (pass4Step used exp best kv).2 := by
  rcases pass4Step_cases used exp best kv with h | ⟨h, _, hs⟩
  · rw [h]
  · rw [h]
    exact le_of_lt hs

lemma pass4Fold_le (used : List String) (exp : String) :
    ∀ (l : List (String × String)) (init : Option (String × String) × ℚ),
      init.2 ≤ (l.foldl (pass4Step used exp) init).2 := by
  intro l
  induction l with
  | nil => intro init; exact le_rfl
  | cons a t ih =>
    intro init
    rw [List.foldl_cons]
    exact le_trans (pass4Step_le used exp init a) (ih _)

lemma pass4Fold_max (used : List String) (exp : String) :
    ∀ (l : List (String × String)) (init : Option (String × String) × ℚ)
      (kv : String × String), kv ∈ l → pass4Cand used exp kv = true →
      pass4Score exp kv ≤ (l.foldl (pass4Step used exp) init).2 := by
  intro l
  induction l with
  | nil => intro init kv h; cases h
  | cons a t ih =>
    intro init kv hmem hc
    rw [List.foldl_cons]
    rcases List.mem_cons.1 hmem with rfl | hmem'
    · have hstep : pass4Score exp kv ≤ (pass4Step used exp init kv).2 := by
        rcases pass4Step_cases used exp init kv with h | ⟨h, _, _⟩
        · rw [h]
          rcases le_or_lt (pass4Score exp kv) init.2 with hle | hlt
          · exact hle
          · rw [pass4Step_eq, if_pos hc, if_pos hlt] at h
            have := congrArg Prod.snd h
            simp at this
            rw [← this]
        · rw [h]
      exact le_trans hstep (pass4Fold_le used exp t _)
    · exact ih _ kv hmem' hc

lemma pass4Fold_some (used : List String) (exp : String) :
    ∀ (l : List (String × String)) (init : Option (String × String) × ℚ)
      (kv0 : String × String), init.1 = some kv0 →
      ∃ kv1, (l.foldl (pass4Step used exp) init).1 = some kv1 := by
  intro l
  induction l with
  | nil => intro init kv0 h; exact ⟨kv0, h⟩
  | cons a t ih =>
    intro init kv0 h
    rw [List.foldl_cons]
    rcases pass4Step_cases used exp init a with hst | ⟨hst, _, _⟩
    · rw [hst]
      exact ih init kv0 h
    · rw [hst]
      exact ih _ a rfl

lemma pass4Fold_none (used : List String) (exp : String) :
    ∀ (l : List (String × String)) (init : Option (String × String) × ℚ),
      (l.foldl (pass4Step used exp) init).1 = none →
      (l.foldl (pass4Step used exp) init).2 = init.2 := by
  intro l
  induction l with
  | nil => intro init _; rfl
  | cons a t ih =>
    intro init h
    rw [List.foldl_cons] at h ⊢
    rcases pass4Step_cases used exp init a with hst | ⟨hst, _, _⟩
    · rw [hst] at h ⊢
      exact ih _ h
    · exfalso
      obtain ⟨kv1, hk⟩ := pass4Fold_some used exp t (pass4Step used exp init a) a
        (by rw [hst])
      rw [h] at hk
      cases hk

lemma pass4Fold_char (used : List String) (exp : String)
    (found : List (String × String)) :
    ∀ (l : List (String × String)) (init : Option (String × String) × ℚ),
      (∀ kv0, init.1 = some kv0 → kv0 ∈ found ∧ pass4Cand used exp kv0 = true ∧
        init.2 = pass4Score exp kv0) →
      (∀ kv ∈ l, kv ∈ found) →
      ∀ kv s, l.foldl (pass4Step used exp) init = (some kv, s) →
        kv ∈ found ∧ pass4Cand used exp kv = true ∧ s = pass4Score exp kv := by
  intro l
  induction l with
  | nil =>
    intro init hpre _ kv s h
    simp only [List.foldl_nil] at h
    obtain ⟨h1, h2, h3⟩ := hpre kv (by rw [h])
    refine ⟨h1, h2, ?_⟩
    rw [← h3, h]
  | cons a t ih =>
    intro init hpre hmem kv s h
    rw [List.foldl_cons] at h
    refine ih _ ?_ (fun kv' hk => hmem kv' (List.mem_cons_of_mem a hk)) kv s h
    rcases pass4Step_cases used exp init a with hst | ⟨hst, hc, _⟩
    · rw [hst]
      exact hpre
    · rw [hst]
      intro kv0 h0
      have hk0 : a = kv0 := by simpa using h0
      subst hk0
      exact ⟨hmem a (List.mem_cons_self a t), hc, rfl⟩

lemma lower_length (s : String) : (Py.lower s).length = s.length := by
  show (s.data.map Char.toLower).length = s.data.length
  exact List.length_map s.data Char.toLower

lemma pass4Score_ratio (exp : String) (kv : String × String) (h : kv.1.length ≠ 0) :
    pass4Score exp kv = (exp.length : ℚ) / (kv.1.length : ℚ) := by
  unfold pass4Score
  rw [lower_length, lower_length]
  congr 1
  rw [Nat.max_eq_left (by omega)]

/-- **C5**: pass 4, for one still-unresolved expected name, considers exactly
the unconsumed found files where one of the two lowered names contains the
other (`pass4Cand`), and when it picks one, the pick is such a candidate
attaining the maximal `len(expected)/len(found)` ratio; it assigns the pick in
the loop only when that ratio exceeds 0.4 (2/5), and otherwise sends the name
to `remaining`, whose members the matcher reports as `not_found` matches.
When no candidate is picked the running best score is still 0 and every
candidate's ratio is ≤ 0 (only possible for an empty expected name).  Found
names are assumed nonempty, as the extractor guarantees. -/
theorem pass4_fuzzy_selection (found : List (String × String)) (used : List String)
    (exp : String) (hne : ∀ kv ∈ found, kv.1.length ≠ 0) :
    (∀ kv s, pass4Pick found used exp = (some kv, s) →
      kv ∈ found ∧ pass4Cand used exp kv = true ∧
      s = (exp.length : ℚ) / (kv.1.length : ℚ) ∧
      ∀ kv' ∈ found, pass4Cand used exp kv' = true →
        (exp.length : ℚ) / (kv'.1.length : ℚ) ≤ s) ∧
    (∀ s, pass4Pick found used exp = (none, s) → s = 0 ∧
      ∀ kv' ∈ found, pass4Cand used exp kv' = true →
        (exp.length : ℚ) / (kv'.1.length : ℚ) ≤ 0) ∧
    (∀ (ext : String) (rest : List String) (st : MatchSt) (orig path : String) (s : ℚ),
      pass4Pick found st.used exp = (some (orig, path), s) → s > 2/5 →
      pass4Go found ext (exp :: rest) st = pass4Go found ext rest
        { st with
          matched := dictInsert st.matched exp path,
          fmatches := st.fmatches ++ [⟨exp, orig ++ ext, "fuzzy",
            "Named '" ++ orig ++ ext ++ "' -- assumed to be '" ++ exp ++ ext ++ "'"⟩],
          used := st.used ++ [orig] }) ∧
    (∀ (ext : String) (rest : List String) (st : MatchSt) (orig path : String) (s : ℚ),
      pass4Pick found st.used exp = (some (orig, path), s) → ¬ s > 2/5 →
      pass4Go found ext (exp :: rest) st =
        pass4Go found ext rest { st with remaining := st.remaining ++ [exp] }) ∧
    (∀ (ext : String) (rest : List String) (st : MatchSt) (s : ℚ),
      pass4Pick found st.used exp = (none, s) →
      pass4Go found ext (exp :: rest) st =
        pass4Go found ext rest { st with remaining := st.remaining ++ [exp] }) ∧
    (∀ (exps : List String) (ext : String) (e : String),
      e ∈ (matchFinalState found exps ext).remaining →
      ({ expected_name := e, actual_filename := "", match_type := "not_found",
         issue := "'" ++ e ++ ext ++ "' not found in submission" } : FileMatch) ∈
        (matchFiles found exps ext).2.1) := by
  refine ⟨?_, ?_, ?_, ?_, ?_, ?_⟩
  · intro kv s h
    unfold pass4Pick at h
    obtain ⟨hmem, hcand, hsc⟩ := pass4Fold_char used exp found found (none, 0)
      (by intro kv0 h0; exact absurd h0 (by simp)) (fun kv' hk => hk) kv s h
    refine ⟨hmem, hcand, ?_, ?_⟩
    · rw [hsc, pass4Score_ratio exp kv (hne kv hmem)]
    · intro kv' hmem' hcand'
      have hmax := pass4Fold_max used exp found (none, 0) kv' hmem' hcand'
      rw [h] at hmax
      rw [← pass4Score_ratio exp kv' (hne kv' hmem')]
      exact hmax
  · intro s h
    unfold pass4Pick at h
    have h1 : (found.foldl (pass4Step used exp) (none, 0)).1 = none := by rw [h]
    have h2 := pass4Fold_none used exp found (none, 0) h1
    rw [h] at h2
    refine ⟨h2, ?_⟩
    intro kv' hmem' hcand'
    have hmax := pass4Fold_max used exp found (none, 0) kv' hmem' hcand'
    rw [h] at hmax
    rw [← pass4Score_ratio exp kv' (hne kv' hmem')]
    calc (pass4Score exp kv') ≤ s := hmax
    _ = 0 := h2
  · intro ext rest st orig path s hpick hs
    simp only [pass4Go, hpick, if_pos hs]
  · intro ext rest st orig path s hpick hs
    simp only [pass4Go, hpick, if_neg hs]
  · intro ext rest st s hpick
    simp only [pass4Go, hpick]
  · intro exps ext e he
    simp only [matchFiles]
    exact List.mem_append_right _ (List.mem_map_of_mem _ he)

/-- Witness for C5: with found file `MyNot`, nothing consumed, and expected
name `Not`, pass 4 picks `MyNot` with ratio `3/5 > 0.4`. -/
theorem pass4_fuzzy_selection_witness :
    ("MyNot", "/p") ∈ [("MyNot", "/p")] ∧
    pass4Cand [] "Not" ("MyNot", "/p") = true ∧
    (3/5 : ℚ) = ((("Not" : String).length : ℚ) / ((("MyNot" : String).length : ℚ))) := by
  have hc : pass4Cand [] "Not" ("MyNot", "/p") = true := by decide
  have hl1 : (Py.lower "Not").length = 3 := by decide
  have hl2 : (Py.lower "MyNot").length = 5 := by decide
  have hsc : pass4Score "Not" ("MyNot", "/p") = 3/5 := by
    unfold pass4Score
    rw [hl1, hl2]
    norm_num
  have hpick : pass4Pick [("MyNot", "/p")] [] "Not" = (some ("MyNot", "/p"), 3/5) := by
    unfold pass4Pick
    rw [List.foldl_cons, List.foldl_nil, pass4Step_eq, if_pos hc, hsc]
    norm_num
  have h := (pass4_fuzzy_selection [("MyNot", "/p")] [] "Not" (by decide)).1
    ("MyNot", "/p") (3/5) hpick
  exact ⟨h.1, h.2.1, h.2.2.1⟩

-- ── Test runner (`_run_one`) and pipeline (`grade_student`) ──

/-- Does `p` hold of some suffix of the list (the scan of `re.search`)? -/
def anySuffix (p : List Char → Bool) : List Char → Bool
  | [] => p []
  | c :: cs => p (c :: cs) || anySuffix p cs

/-- The success check of `_run_one`:
`"Comparison ended successfully" in out or
 "End of script - Comparison ended successfully" in out`
(the second disjunct is subsumed by the first, as in the source). -/
def successMarker (out : String) : Bool :=
  Py.containsStr out "Comparison ended successfully" ||
  Py.containsStr out "End of script - Comparison ended successfully"

/-- Match of `[Cc]omparison failure at line (\d+)` at the head of a suffix:
the literal text (either capitalization) followed by at least one digit. -/
def compareFailAt (suffix : List Char) : Bool :=
  (Py.startsWithL ("Comparison failure at line ".data) suffix ||
   Py.startsWithL ("comparison failure at line ".data) suffix) &&
  (match suffix.drop 27 with
   | d :: _ => d.isDigit
   | [] => false)

/-- `re.search(r'[Cc]omparison failure at line (\d+)', out)` succeeds. -/
def compareFailMarker (out : String) : Bool :=
  anySuffix compareFailAt out.data

/-- `_clean_err(raw)`. -/
def cleanErr (raw : String) : String :=
  let lines := ((Py.splitStr '\n' raw).map Py.strip).filter fun l =>
    !(l == "" || Py.startsWithL ("at ".data) l.data ||
      Py.containsStr (Py.lower l) "java." || Py.containsStr l "Exception in thread")
  if lines.isEmpty then "Unknown error"
  else Py.take (Py.joinWith "; " (lines.take 3)) 200

/-- What happened at the simulator subprocess call of `_run_one`: it
completed (with combined stdout/stderr and the sandbox trace files
`_partial_credit` would read), it hit the 60-second timeout
(`subprocess.TimeoutExpired`), or it — or any earlier statement of the
`try` body — raised some other exception with the given message. -/
inductive SimCall where
  | completed (output : String) (sandboxCmp sandboxOut : Option (List String))
  | timedOut
  | raised (msg : String)
  deriving Repr, DecidableEq

/-- Oracle for the filesystem/subprocess facts a `_run_one` call reads:
`_check_builtin` and `_has_work` on the matched file, existence of the
`.tst`/`.cmp` fixtures, the `.cmp` file's `splitlines`, and the subprocess
outcome. -/
structure ChipEnv where
  isBuiltin : Bool
  hasWork : Bool
  tstExists : Bool
  cmpExists : Bool
  cmpLines : List String
  sim : SimCall
  deriving Repr, DecidableEq

/-- Filesystem events for the temporary-directory discipline. -/
inductive FxEvent where
  | created (dir : String)
  | removed (dir : String)
  deriving Repr, DecidableEq

/-- `_run_one(chip, matched, project)` over the oracle `env`; `matchedHas`
is `chip in matched` (the only fact about `matched` the control flow reads;
the matched file's content is behind the `isBuiltin`/`hasWork` oracles).
Returns the `ChipResult` and the sandbox-directory event trace: the
`mkdtemp` happens after the three early returns, and the
`finally: shutil.rmtree(sb, ignore_errors=True)` runs on every exit path of
the `try`, including the timeout and exception handlers. -/
def runOne (chip : String) (matchedHas : Bool) (proj : Project) (env : ChipEnv) :
    ChipResult × List FxEvent :=
  let mx := proj.chipPts chip
  if !matchedHas then
    ({ name := chip, passed := false, points := 0, max_points := mx,
       error_type := "missing", error_msg := "Not submitted" }, [])
  else if proj.file_ext == ".hdl" && env.isBuiltin then
    ({ name := chip, passed := false, points := 0, max_points := mx,
       error_type := "builtin", error_msg := "Uses BUILTIN (not allowed)" }, [])
  else if !env.tstExists then
    ({ name := chip, passed := false, points := 0, max_points := mx,
       error_type := "internal", error_msg := chip ++ ".tst not found" }, [])
  else
    let sb := "c_" ++ chip
    let res : ChipResult :=
      match env.sim with
      | SimCall.raised msg =>
        { name := chip, passed := false, points := 0, max_points := mx,
          error_type := "internal", error_msg := Py.take msg 150 }
      | SimCall.timedOut =>
        { name := chip, passed := false,
          points := if env.hasWork then round2 (mx * (1/10)) else 0,
          max_points := mx, error_type := "timeout",
          error_msg := "Timed out (possible loop)" }
      | SimCall.completed out sbCmp sbOut =>
        if successMarker out then
          let tt := if env.cmpExists then env.cmpLines.length - 1 else 0
          { name := chip, passed := true, points := mx, max_points := mx,
            error_type := "pass", total_tests := tt, passed_tests := tt }
        else if compareFailMarker out then
          match partialCredit sbCmp sbOut mx with
          | (p, ps, tt, fl, fe, fa) =>
            { name := chip, passed := false, points := p, max_points := mx,
              error_type := "mismatch",
              error_msg := toString ps ++ "/" ++ toString tt ++
                " tests passed (first fail line " ++ toString fl ++ ")",
              fail_line := fl, expected := fe, actual := fa,
              total_tests := tt, passed_tests := ps }
        else
          let ce := cleanErr out
          if env.hasWork then
            { name := chip, passed := false, points := round2 (mx * (15/100)),
              max_points := mx, error_type := "syntax",
              error_msg := "Syntax error (effort credit): " ++ ce }
          else
            { name := chip, passed := false, points := 0, max_points := mx,
              error_type := "syntax", error_msg := ce }
    (res, [FxEvent.created sb, FxEvent.removed sb])

/-- `_cascades(results, deps)`. -/
def cascades (results : List ChipResult) (deps : List (String × List String)) :
    List String :=
  let failed := (results.filter fun c => !c.passed).map fun c => c.name
  if failed.isEmpty then []
  else
    results.filterMap fun c =>
      if failed.contains c.name then
        let bd := ((deps.lookup c.name).getD []).filter fun d => failed.contains d
        if !bd.isEmpty then
          some (c.name ++ " likely fails because " ++ Py.joinWith ", " bd ++
            " also broken")
        else none
      else none

-- ── Naming validator (`check_zip_naming`) ────────────────────

/-- Match of `(?:hw|homework)\s*<digits>` at the head of a (lowered) suffix. -/
def hwAt (digits : List Char) (suffix : List Char) : Bool :=
  (Py.startsWithL ("hw".data) suffix &&
    Py.startsWithL digits ((suffix.drop 2).dropWhile Char.isWhitespace)) ||
  (Py.startsWithL ("homework".data) suffix &&
    Py.startsWithL digits ((suffix.drop 8).dropWhile Char.isWhitespace))

/-- `re.search(rf'(?:hw|homework)\s*{project_num}', name_no_ext, re.IGNORECASE)`. -/
def hwNumPresent (nameNoExt : String) (n : ℕ) : Bool :=
  anySuffix (hwAt (toString n).data) (Py.lower nameNoExt).data

/-- The source's `.zip`-stripping of the archive name
(`name_no_ext[:-4]` when the lowered name ends in `.zip`). -/
def stripZipExt (filename : String) : String :=
  if Py.endsWithL (Py.lower filename).data ".zip".data then Py.dropRight filename 4
  else filename

/-- `first`/`last` from `student_name.strip().split()`: two or more tokens
take the first and last, a single token gets an empty `last`, no tokens fall
back to the `Unknown`/`Student` placeholder. -/
def nameTokens (studentName : String) : String × String :=
  match Py.words (Py.strip studentName) with
  | [] => ("Unknown", "Student")
  | [a] => (a, "")
  | a :: rest => (a, (rest.getLast?).getD a)

/-- The `expected_patterns` table of `check_zip_naming` with its
`.get(project_num, f"HW{project_num}_{first}_{last}")` fallback. -/
def expectedZipName (first last : String) (projectNum : ℕ) : String :=
  (([(1, "HW1_Gates_" ++ first ++ "_" ++ last),
     (2, "HW2_ALU_" ++ first ++ "_" ++ last),
     (3, "HW3_Memory_" ++ first ++ "_" ++ last),
     (4, "HW4_Assembly_" ++ first ++ "_" ++ last),
     (5, "HW5_Computer_" ++ first ++ "_" ++ last)] : List (ℕ × String)).lookup
    projectNum).getD ("HW" ++ toString projectNum ++ "_" ++ first ++ "_" ++ last)

/-- The body of `check_zip_naming` after the `get_project` call (everything
below that call is total). -/
def checkZipNamingBody (pattern : String) (filename studentName : String)
    (projectNum : ℕ) : ZipNaming :=
  if filename == "" then
    { original_filename := "", is_correct := false,
      expected_pattern := pattern, issue := "No filename available" }
  else
    let nameNoExt := stripZipExt filename
    let ft := nameTokens studentName
    let first := ft.1
    let last := ft.2
    let expected := expectedZipName first last projectNum
    if nameNoExt == expected then
      { original_filename := filename, is_correct := true,
        expected_pattern := expected ++ ".zip" }
    else
      let hwNum := hwNumPresent nameNoExt projectNum
      let namePresent :=
        if last ≠ "" then
          Py.containsStr (Py.lower nameNoExt) (Py.lower first) ||
          Py.containsStr (Py.lower nameNoExt) (Py.lower last)
        else Py.containsStr (Py.lower nameNoExt) (Py.lower first)
      let issues := (if !hwNum then ["missing homework number"] else []) ++
        (if !namePresent then ["missing your name"] else [])
      let issue :=
        if !issues.isEmpty then
          "Zip named '" ++ filename ++ "' -- should be '" ++ expected ++
            ".zip' (" ++ Py.joinWith ", " issues ++ ")"
        else
          "Zip named '" ++ filename ++ "' -- should be '" ++ expected ++ ".zip'"
      { original_filename := filename, is_correct := false,
        expected_pattern := expected ++ ".zip", issue := issue }

/-- `check_zip_naming(filename, student_name, project_num)`; the `get_project`
call raises (propagated here as `Except.error`) for an undefined project,
and is the only raising statement of the function. -/
def checkZipNaming (filename studentName : String) (projectNum : ℕ) :
    Except String ZipNaming :=
  (getProject (some projectNum)).map fun proj =>
    checkZipNamingBody proj.zip_pattern filename studentName projectNum

-- ── Pipeline (`grade_student`) ───────────────────────────────

/-- Oracle for one `grade_student` run: whether opening/extracting the
archive raises a non-`BadZipFile` exception (its message), whether it raises
`zipfile.BadZipFile` (caught: empty mapping), the extracted base-name → path
mapping otherwise, and each chip's `ChipEnv`. -/
structure GradeEnv where
  zipOpenError : Option String
  badZip : Bool
  files : List (String × String)
  chipEnv : String → ChipEnv

/-- `_extract_zip(zip_path, file_ext)`: `tempfile.mkdtemp` runs first; a
`BadZipFile` is caught and yields `(tmp, {})`; any other exception from
opening or extracting propagates, and nothing removes the temp dir on that
path (the event trace records only the creation). -/
def extractZip (env : GradeEnv) :
    Except String (String × List (String × String)) × List FxEvent :=
  let tmp := "n2t_0"
  match env.zipOpenError with
  | some e => (Except.error e, [FxEvent.created tmp])
  | none =>
    (Except.ok (tmp, if env.badZip then [] else env.files), [FxEvent.created tmp])


/-- The all-`missing` early result of `grade_student` when no files were
extracted (`pts[c]` is a direct dict hit for every configured chip name,
written `chipPts`). -/
def emptyResult (proj : Project) (studentName : String) (userId : ℕ)
    (zn : ZipNaming) : GradingResult :=
  { student_name := studentName, user_id := userId,
    project_num := proj.number,
    chips := proj.chipNames.map fun c =>
      { name := c, passed := false, points := 0,
        max_points := proj.chipPts c, error_type := "missing",
        error_msg := "No " ++ proj.file_ext ++ " files in submission" },
    total_earned := 0, total_possible := proj.totalPoints,
    warnings := ["No " ++ proj.file_ext ++ " files found in zip"],
    file_matches := proj.chipNames.map fun c =>
      { expected_name := c, actual_filename := "",
        match_type := "not_found",
        issue := "No " ++ proj.file_ext ++ " files in zip" },
    extra_files := [], zip_naming := some zn }

/-- The per-chip runs of the main path, in configured chip order. -/
def mainRuns (env : GradeEnv) (proj : Project) (raw : List (String × String)) :
    List (ChipResult × List FxEvent) :=
  proj.chipNames.map fun c =>
    runOne c (dictMem (matchFiles raw proj.chipNames proj.file_ext).1 c) proj
      (env.chipEnv c)

/-- The main-path result of `grade_student`: match files, run every chip in
order, accumulate and round the total, then naming and cascade warnings
(the source's redundant `fixed > 0` guard is folded into the filter). -/
def mainResult (env : GradeEnv) (proj : Project) (studentName : String)
    (userId : ℕ) (zn : ZipNaming) (raw : List (String × String)) :
    GradingResult :=
  let m := matchFiles raw proj.chipNames proj.file_ext
  let namingWarns := (m.2.1.filter fun fm =>
    fm.match_type == "case_fix" || fm.match_type == "fuzzy").map
      fun fm => "Naming: " ++ fm.issue
  let chipResults := (mainRuns env proj raw).map Prod.fst
  { student_name := studentName, user_id := userId,
    project_num := proj.number, chips := chipResults,
    total_earned := round2 ((chipResults.map fun c => c.points).sum),
    total_possible := proj.totalPoints,
    warnings := namingWarns ++ cascades chipResults proj.deps,
    file_matches := m.2.1, extra_files := m.2.2,
    zip_naming := some zn }

/-- The sandbox event trace of the per-chip runs on the main path. -/
def mainTrace (env : GradeEnv) (proj : Project) (raw : List (String × String)) :
    List FxEvent :=
  ((mainRuns env proj raw).map Prod.snd).flatten

/-- `grade_student(zip_path, student_name, user_id, project_num, zip_filename)`
over the oracle environment: `get_project` runs first (raising on an
undefined project, before any directory exists), then `_extract_zip` —
*outside* the `try` — then the `try ... finally shutil.rmtree(tmp)` body:
naming check, early return when no files were found, matching, one
`_run_one` per configured chip in order, total rounding, cascade warnings.
(The source's `fixed > 0` guard before the naming-warning loop is redundant
and folded into the filter; `pts[c]` on the early path is `chipPts` — a
direct dict hit for every configured chip name.)
Returns the result or the propagated exception, with the
temporary-directory event trace. -/
def gradeStudent (env : GradeEnv) (studentName : String) (userId : ℕ)
    (projectNum : Option ℕ) (zipFilename : String) :
    Except String GradingResult × List FxEvent :=
  match getProject projectNum with
  | Except.error e => (Except.error e, [])
  | Except.ok proj =>
    match extractZip env with
    | (Except.error e, tr) => (Except.error e, tr)
    | (Except.ok (tmp, raw), tr) =>
      match checkZipNaming zipFilename studentName proj.number with
      | Except.error e => (Except.error e, tr ++ [FxEvent.removed tmp])
      | Except.ok zn =>
        if raw.isEmpty then
          (Except.ok (emptyResult proj studentName userId zn),
            tr ++ [FxEvent.removed tmp])
        else
          (Except.ok (mainResult env proj studentName userId zn raw),
            tr ++ mainTrace env proj raw ++ [FxEvent.removed tmp])

-- ── Rounding facts ───────────────────────────────────────────

lemma round2_le_round2 {a b : ℚ} (h : a ≤ b) : round2 a ≤ round2 b := by
  unfold round2
  have hr : round (a * 100) ≤ round (b * 100) := by
    rw [round_eq, round_eq]
    exact Int.floor_le_floor (by linarith)
  have hc : ((round (a * 100) : ℤ) : ℚ) ≤ ((round (b * 100) : ℤ) : ℚ) :=
    Int.cast_le.2 hr
  linarith

lemma round2_zero : round2 0 = 0 := by
  norm_num [round2, round_eq]

lemma round2_nonneg {a : ℚ} (h : 0 ≤ a) : 0 ≤ round2 a := by
  have := round2_le_round2 h
  rw [round2_zero] at this
  exact this

-- ── C3: effort-credit policy ─────────────────────────────────

/-- **C3**: a simulated component (matched, not blocked as builtin, with an
existing test script) whose completed output shows neither the success
marker nor the comparison-failure marker is classified `syntax` with
`round(0.15 * max, 2)` effort credit iff the has-work heuristic holds (zero
otherwise); a component whose simulator call times out is classified
`timeout` with `round(0.1 * max, 2)` iff has-work (zero otherwise). -/
theorem effort_credit_policy (chip : String) (proj : Project) (env : ChipEnv)
    (hbuiltin : (proj.file_ext == ".hdl" && env.isBuiltin) = false)
    (htst : env.tstExists = true) :
    (∀ out sbCmp sbOut, env.sim = SimCall.completed out sbCmp sbOut →
      successMarker out = false → compareFailMarker out = false →
      (runOne chip true proj env).1.error_type = "syntax" ∧
      (runOne chip true proj env).1.points =
        (if env.hasWork then round2 (proj.chipPts chip * (15/100)) else 0)) ∧
    (env.sim = SimCall.timedOut →
      (runOne chip true proj env).1.error_type = "timeout" ∧
      (runOne chip true proj env).1.points =
        (if env.hasWork then round2 (proj.chipPts chip * (1/10)) else 0)) := by
  constructor
  · intro out sbCmp sbOut hsim hsucc hfail
    simp only [runOne, hbuiltin, htst, hsim, hsucc, hfail]
    by_cases hw : env.hasWork <;> simp [hw]
  · intro hsim
    simp only [runOne, hbuiltin, htst, hsim]
    by_cases hw : env.hasWork <;> simp [hw]

/-- Witness for C3 at project 4's `Mult` (max 5.0): garbage simulator output
with has-work true gives `syntax` and `round(5*0.15,2) = 0.75`; a timeout
with has-work true gives `timeout` and `round(5*0.1,2) = 0.5`. -/
theorem effort_credit_policy_witness :
    ((project4.file_ext == ".hdl" &&
      (⟨false, true, true, false, [], SimCall.completed "boom" none none⟩ :
        ChipEnv).isBuiltin) = false) ∧
    (runOne "Mult" true project4
      ⟨false, true, true, false, [], SimCall.completed "boom" none none⟩).1.error_type =
      "syntax" ∧
    (runOne "Mult" true project4
      ⟨false, true, true, false, [], SimCall.completed "boom" none none⟩).1.points =
      3/4 ∧
    (runOne "Mult" true project4
      ⟨false, true, true, false, [], SimCall.timedOut⟩).1.error_type = "timeout" ∧
    (runOne "Mult" true project4
      ⟨false, true, true, false, [], SimCall.timedOut⟩).1.points = 1/2 := by
  have hpts : project4.chipPts "Mult" = 5 := by
    simp [Project.chipPts, project4, List.lookup]
  have h1 := (effort_credit_policy "Mult" project4
    ⟨false, true, true, false, [], SimCall.completed "boom" none none⟩
    (by decide) rfl).1 "boom" none none rfl (by decide) (by decide)
  have h2 := (effort_credit_policy "Mult" project4
    ⟨false, true, true, false, [], SimCall.timedOut⟩
    (by decide) rfl).2 rfl
  refine ⟨by decide, h1.1, ?_, h2.1, ?_⟩
  · rw [h1.2, hpts]
    norm_num [round2, round_eq]
  · rw [h2.2, hpts]
    norm_num [round2, round_eq]

deriving instance DecidableEq for Except

-- ── C8: naming validator on single-token names ───────────────

/-- The expected canonical archive name as the spec's words describe it for
a single-token student name: first = last = that token (this is the
spec-side reading which the counterexample below compares against the
code's behavior). -/
def specExpectedName (token : String) (projectNum : ℕ) : String :=
  expectedZipName token token projectNum

/-- Counterexample to C8 as frozen: for the single-token name `Alice` the
code sets `last = ""` (line 114–116 of `grading_engine.py`), not
`last = first`, so the canonical form is `HW1_Gates_Alice_` with a trailing
underscore.  An archive named exactly per the spec's reading
(`HW1_Gates_Alice_Alice.zip`) is judged incorrect. -/
theorem zip_naming_single_token_counterexample :
    Py.words (Py.strip "Alice") = ["Alice"] ∧
    stripZipExt "HW1_Gates_Alice_Alice.zip" = specExpectedName "Alice" 1 ∧
    (checkZipNaming "HW1_Gates_Alice_Alice.zip" "Alice" 1).map ZipNaming.is_correct =
      Except.ok false ∧
    nameTokens "Alice" = ("Alice", "") ∧
    (checkZipNaming "HW1_Gates_Alice_.zip" "Alice" 1).map ZipNaming.is_correct =
      Except.ok true := by
  refine ⟨by decide, by decide, ?_, by decide, ?_⟩ <;> decide

/-- **C8** (amended): for a single-token student name the validator derives
the canonical archive name with `first` = that token and `last` empty (a
trailing underscore); an absent name falls back to the `Unknown`/`Student`
placeholder; and for a nonempty filename the correctness flag is true
exactly when the filename with its `.zip` extension stripped equals the
derived canonical form. -/
theorem zip_naming_single_token (filename studentName : String)
    (projectNum : ℕ) (token : String) (proj : Project)
    (htok : Py.words (Py.strip studentName) = [token])
    (hproj : getProject (some projectNum) = Except.ok proj)
    (hfn : filename ≠ "") :
    (∃ zn, checkZipNaming filename studentName projectNum = Except.ok zn ∧
      zn.expected_pattern = expectedZipName token "" projectNum ++ ".zip" ∧
      (zn.is_correct = true ↔
        stripZipExt filename = expectedZipName token "" projectNum)) ∧
    (∀ s, Py.words (Py.strip s) = [] → nameTokens s = ("Unknown", "Student")) := by
  constructor
  · have htoks : nameTokens studentName = (token, "") := by
      unfold nameTokens
      rw [htok]
    have hfn' : (filename == "") = false := by
      simp [hfn]
    unfold checkZipNaming checkZipNamingBody
    rw [hproj]
    simp only [Except.map, hfn', htoks]
    by_cases he : stripZipExt filename = expectedZipName token "" projectNum
    · have hbeq : (stripZipExt filename == expectedZipName token "" projectNum) = true := by
        simp [he]
      simp [hbeq, he]
    · have hbeq : (stripZipExt filename == expectedZipName token "" projectNum) = false := by
        simp [he]
      simp [hbeq, he]
  · intro s hs
    unfold nameTokens
    rw [hs]

/-- Witness for the amended C8 at a concrete single-token name. -/
theorem zip_naming_single_token_witness :
    Py.words (Py.strip "Alice") = ["Alice"] ∧
    ((∃ zn, checkZipNaming "HW1_Gates_Alice_.zip" "Alice" 1 = Except.ok zn ∧
      zn.expected_pattern = expectedZipName "Alice" "" 1 ++ ".zip" ∧
      (zn.is_correct = true ↔
        stripZipExt "HW1_Gates_Alice_.zip" = expectedZipName "Alice" "" 1)) ∧
    (∀ s, Py.words (Py.strip s) = [] → nameTokens s = ("Unknown", "Student"))) :=
  ⟨by decide, zip_naming_single_token _ _ 1 "Alice" project1 (by decide) rfl (by decide)⟩

-- ── Project-table facts ──────────────────────────────────────

lemma lookup_PROJECTS (num : ℕ) (proj : Project)
    (h : PROJECTS.lookup num = some proj) :
    proj.number = num ∧ num ≠ 0 ∧ (num, proj) ∈ PROJECTS := by
  by_cases e1 : num = 1
  · subst e1
    simp only [PROJECTS, List.lookup] at h
    simp at h
    subst h
    exact ⟨rfl, by decide, by simp [PROJECTS]⟩
  · by_cases e2 : num = 2
    · subst e2
      simp only [PROJECTS, List.lookup] at h
      simp at h
      subst h
      exact ⟨rfl, by decide, by simp [PROJECTS]⟩
    · by_cases e3 : num = 3
      · subst e3
        simp only [PROJECTS, List.lookup] at h
        simp at h
        subst h
        exact ⟨rfl, by decide, by simp [PROJECTS]⟩
      · by_cases e4 : num = 4
        · subst e4
          simp only [PROJECTS, List.lookup] at h
          simp at h
          subst h
          exact ⟨rfl, by decide, by simp [PROJECTS]⟩
        · by_cases e5 : num = 5
          · subst e5
            simp only [PROJECTS, List.lookup] at h
            simp at h
            subst h
            exact ⟨rfl, by decide, by simp [PROJECTS]⟩
          · exfalso
            have h1 : ((num : ℕ) == 1) = false := by
              simp only [beq_eq_false_iff_ne]
              omega
            have h2 : ((num : ℕ) == 2) = false := by
              simp only [beq_eq_false_iff_ne]
              omega
            have h3 : ((num : ℕ) == 3) = false := by
              simp only [beq_eq_false_iff_ne]
              omega
            have h4 : ((num : ℕ) == 4) = false := by
              simp only [beq_eq_false_iff_ne]
              omega
            have h5 : ((num : ℕ) == 5) = false := by
              simp only [beq_eq_false_iff_ne]
              omega
            simp [PROJECTS, List.lookup, h1, h2, h3, h4, h5] at h

lemma getProject_facts (pn : Option ℕ) (proj : Project)
    (h : getProject pn = Except.ok proj) :
    getProject (some proj.number) = Except.ok proj ∧
      (proj.number, proj) ∈ PROJECTS := by
  have key : ∀ num : ℕ,
      (match PROJECTS.lookup num with
        | some p => Except.ok p
        | none =>
          (Except.error ("Project " ++ toString num ++ " not defined") :
            Except String Project)) = Except.ok proj →
      getProject (some proj.number) = Except.ok proj ∧
        (proj.number, proj) ∈ PROJECTS := by
    intro num hm
    cases hl : PROJECTS.lookup num with
    | none => rw [hl] at hm; cases hm
    | some p =>
      rw [hl] at hm
      have hp : p = proj := by injection hm
      subst hp
      obtain ⟨hnum, hnz, hmem⟩ := lookup_PROJECTS num p hl
      refine ⟨?_, by rw [hnum]; exact hmem⟩
      have hres : (if p.number = 0 then ACTIVE_PROJECT else p.number) = num := by
        rw [hnum, if_neg hnz]
      unfold getProject
      simp only [hres, hl]
  cases pn with
  | none => exact key ACTIVE_PROJECT h
  | some n =>
    simp only [getProject] at h
    by_cases hz : n = 0
    · rw [if_pos hz] at h
      exact key ACTIVE_PROJECT h
    · rw [if_neg hz] at h
      exact key n h

-- ── C6: exception containment ────────────────────────────────

/-- Counterexample to C6 as frozen: `grade_student` installs no exception
handler of its own (its `try` has only a `finally`); with an undefined
project number the opening `get_project` call raises `ValueError`, and the
exception propagates to the caller — no degenerate zero-score
`GradingResult` with an `internal` note is returned.  (The per-submission
containment the spec describes lives in the bot's batch loop, outside the
engine.) -/
theorem pipeline_exception_propagates :
    gradeStudent
      ⟨none, false, [], fun _ => ⟨false, false, false, false, [], SimCall.timedOut⟩⟩
      "S" 1 (some 99) "x.zip" = (Except.error "Project 99 not defined", []) := by
  decide

/-- **C6** (amended): containment happens one level down — with a valid
project and a readable archive, `grade_student` always returns `Except.ok`
(nothing in its main body raises), and an exception raised inside one
component's run is caught by `_run_one`'s `except Exception` handler,
yielding a zero-point `internal` `ChipResult` with the truncated message
instead of propagating; but `grade_student` itself propagates pipeline-level
exceptions (undefined project, unreadable archive) to its caller. -/
theorem component_exception_contained (env : GradeEnv) (sn : String) (uid : ℕ)
    (pn : Option ℕ) (zf : String) (proj : Project)
    (hproj : getProject pn = Except.ok proj)
    (hzip : env.zipOpenError = none) :
    (∃ r tr, gradeStudent env sn uid pn zf = (Except.ok r, tr)) ∧
    (∀ chip msg, (env.chipEnv chip).sim = SimCall.raised msg →
      ((proj.file_ext == ".hdl" && (env.chipEnv chip).isBuiltin) = false) →
      (env.chipEnv chip).tstExists = true →
      (runOne chip true proj (env.chipEnv chip)).1.error_type = "internal" ∧
      (runOne chip true proj (env.chipEnv chip)).1.points = 0 ∧
      (runOne chip true proj (env.chipEnv chip)).1.error_msg = Py.take msg 150) := by
  constructor
  · obtain ⟨hproj2, _⟩ := getProject_facts pn proj hproj
    have hzn : checkZipNaming zf sn proj.number =
        Except.ok (checkZipNamingBody proj.zip_pattern zf sn proj.number) := by
      unfold checkZipNaming
      rw [hproj2]
      rfl
    simp only [gradeStudent, extractZip, hproj, hzip, hzn]
    by_cases hr : (if env.badZip then [] else env.files).isEmpty
    · simp only [hr, if_true]
      exact ⟨_, _, rfl⟩
    · simp only [hr, if_false]
      exact ⟨_, _, rfl⟩
  · intro chip msg hsim hb ht
    simp only [runOne, hb, ht, hsim]
    simp

/-- Witness for the amended C6 at a concrete environment where every chip's
run raises. -/
theorem component_exception_contained_witness :
    (getProject (some 4) = Except.ok project4) ∧
    ((∃ r tr, gradeStudent
      ⟨none, false, [("Mult", "/p")],
        fun _ => ⟨false, false, true, false, [], SimCall.raised "boom"⟩⟩
      "S" 1 (some 4) "x.zip" = (Except.ok r, tr)) ∧
    (∀ chip msg,
      ((⟨none, false, [("Mult", "/p")],
        fun _ => ⟨false, false, true, false, [], SimCall.raised "boom"⟩⟩ :
          GradeEnv).chipEnv chip).sim = SimCall.raised msg →
      ((project4.file_ext == ".hdl" &&
        ((⟨none, false, [("Mult", "/p")],
          fun _ => ⟨false, false, true, false, [], SimCall.raised "boom"⟩⟩ :
            GradeEnv).chipEnv chip).isBuiltin) = false) →
      ((⟨none, false, [("Mult", "/p")],
        fun _ => ⟨false, false, true, false, [], SimCall.raised "boom"⟩⟩ :
          GradeEnv).chipEnv chip).tstExists = true →
      (runOne chip true project4
        ((⟨none, false, [("Mult", "/p")],
          fun _ => ⟨false, false, true, false, [], SimCall.raised "boom"⟩⟩ :
            GradeEnv).chipEnv chip)).1.error_type = "internal" ∧
      (runOne chip true project4
        ((⟨none, false, [("Mult", "/p")],
          fun _ => ⟨false, false, true, false, [], SimCall.raised "boom"⟩⟩ :
            GradeEnv).chipEnv chip)).1.points = 0 ∧
      (runOne chip true project4
        ((⟨none, false, [("Mult", "/p")],
          fun _ => ⟨false, false, true, false, [], SimCall.raised "boom"⟩⟩ :
            GradeEnv).chipEnv chip)).1.error_msg = Py.take msg 150)) :=
  ⟨rfl, component_exception_contained _ "S" 1 (some 4) "x.zip" project4 rfl rfl⟩

-- ── C7: temporary-directory cleanup ──────────────────────────

/-- **C7** (code bug): `_extract_zip` is called before `grade_student`'s
`try`, and its own `try` catches only `zipfile.BadZipFile`; when opening or
extracting the archive raises anything else (e.g. `FileNotFoundError` for a
missing path, or an `OSError` mid-extraction) the `mkdtemp`-created
extraction directory is never removed: the run's event trace holds its
`created` event and no matching `removed`. -/
theorem temp_dir_leak_on_unreadable_zip :
    gradeStudent
      ⟨some "FileNotFoundError", false, [],
        fun _ => ⟨false, false, false, false, [], SimCall.timedOut⟩⟩
      "S" 1 (some 1) "x.zip" =
      (Except.error "FileNotFoundError", [FxEvent.created "n2t_0"]) ∧
    FxEvent.removed "n2t_0" ∉ [FxEvent.created "n2t_0"] := by
  decide

-- ── C9: the naming check never affects the score ─────────────

/-- **C9**: two `grade_student` invocations identical except for the archive
filename passed to the naming check produce the same per-component results,
`total_earned` and `total_possible` — the naming check's output flows only
into the advisory `zip_naming` field. -/
theorem naming_check_never_affects_score (env : GradeEnv) (sn : String)
    (uid : ℕ) (pn : Option ℕ) (f1 f2 : String) (r1 r2 : GradingResult)
    (tr1 tr2 : List FxEvent)
    (h1 : gradeStudent env sn uid pn f1 = (Except.ok r1, tr1))
    (h2 : gradeStudent env sn uid pn f2 = (Except.ok r2, tr2)) :
    r1.chips = r2.chips ∧ r1.total_earned = r2.total_earned ∧
    r1.total_possible = r2.total_possible := by
  simp only [gradeStudent, extractZip] at h1 h2
  cases hp : getProject pn with
  | error e =>
    simp only [hp] at h1
    simp at h1
  | ok proj =>
    simp only [hp] at h1 h2
    cases hz : env.zipOpenError with
    | some e =>
      simp only [hz] at h1
      simp at h1
    | none =>
      simp only [hz] at h1 h2
      obtain ⟨hproj2, _⟩ := getProject_facts pn proj hp
      have hzn1 : checkZipNaming f1 sn proj.number =
          Except.ok (checkZipNamingBody proj.zip_pattern f1 sn proj.number) := by
        unfold checkZipNaming
        rw [hproj2]
        rfl
      have hzn2 : checkZipNaming f2 sn proj.number =
          Except.ok (checkZipNamingBody proj.zip_pattern f2 sn proj.number) := by
        unfold checkZipNaming
        rw [hproj2]
        rfl
      simp only [hzn1] at h1
      simp only [hzn2] at h2
      by_cases hr : (if env.badZip then [] else env.files).isEmpty
      · simp only [hr, if_true] at h1 h2
        have e1 : Except.ok (emptyResult proj sn uid
            (checkZipNamingBody proj.zip_pattern f1 sn proj.number)) =
            Except.ok r1 := congrArg Prod.fst h1
        have e2 : Except.ok (emptyResult proj sn uid
            (checkZipNamingBody proj.zip_pattern f2 sn proj.number)) =
            Except.ok r2 := congrArg Prod.fst h2
        have e1' : emptyResult proj sn uid
            (checkZipNamingBody proj.zip_pattern f1 sn proj.number) = r1 := by
          injection e1
        have e2' : emptyResult proj sn uid
            (checkZipNamingBody proj.zip_pattern f2 sn proj.number) = r2 := by
          injection e2
        rw [← e1', ← e2']
        exact ⟨rfl, rfl, rfl⟩
      · simp only [hr, if_false] at h1 h2
        have e1 : Except.ok (mainResult env proj sn uid
            (checkZipNamingBody proj.zip_pattern f1 sn proj.number)
            (if env.badZip then [] else env.files)) = Except.ok r1 :=
          congrArg Prod.fst h1
        have e2 : Except.ok (mainResult env proj sn uid
            (checkZipNamingBody proj.zip_pattern f2 sn proj.number)
            (if env.badZip then [] else env.files)) = Except.ok r2 :=
          congrArg Prod.fst h2
        have e1' : mainResult env proj sn uid
            (checkZipNamingBody proj.zip_pattern f1 sn proj.number)
            (if env.badZip then [] else env.files) = r1 := by
          injection e1
        have e2' : mainResult env proj sn uid
            (checkZipNamingBody proj.zip_pattern f2 sn proj.number)
            (if env.badZip then [] else env.files) = r2 := by
          injection e2
        rw [← e1', ← e2']
        exact ⟨rfl, rfl, rfl⟩

/-- Witness for C9 at a concrete environment and two different archive
filenames. -/
theorem naming_check_never_affects_score_witness :
    (emptyResult project4 "S" 1
      (checkZipNamingBody project4.zip_pattern "a.zip" "S" 4)).chips =
    (emptyResult project4 "S" 1
      (checkZipNamingBody project4.zip_pattern "b.zip" "S" 4)).chips ∧
    (emptyResult project4 "S" 1
      (checkZipNamingBody project4.zip_pattern "a.zip" "S" 4)).total_earned =
    (emptyResult project4 "S" 1
      (checkZipNamingBody project4.zip_pattern "b.zip" "S" 4)).total_earned ∧
    (emptyResult project4 "S" 1
      (checkZipNamingBody project4.zip_pattern "a.zip" "S" 4)).total_possible =
    (emptyResult project4 "S" 1
      (checkZipNamingBody project4.zip_pattern "b.zip" "S" 4)).total_possible :=
  naming_check_never_affects_score
    ⟨none, true, [], fun _ => ⟨false, false, false, false, [], SimCall.timedOut⟩⟩
    "S" 1 (some 4) "a.zip" "b.zip" _ _ _ _ rfl rfl

-- ── Per-component point bounds (for C1) ──────────────────────

lemma pcLoop_passed_le : ∀ (cs os : List String) (i p f : ℕ) (e a : String),
    (pcLoop cs os i p f e a).1 ≤ p + cs.length := by
  intro cs
  induction cs with
  | nil => intro os i p f e a; simp [pcLoop]
  | cons c t ih =>
    intro os i p f e a
    simp only [pcLoop, List.length_cons]
    by_cases hm : Py.strip c = Py.strip (os.headD "")
    · rw [if_pos hm]
      have h := ih os.tail (i + 1) (p + 1) f e a
      omega
    · rw [if_neg hm]
      by_cases hf : f = 0
      · rw [if_pos hf]
        have h := ih os.tail (i + 1) p i (Py.strip c) (Py.strip (os.headD ""))
        omega
      · rw [if_neg hf]
        have h := ih os.tail (i + 1) p f e a
        omega

lemma partialCredit_bounds (c o : Option (List String)) (mx : ℚ)
    (h0 : 0 ≤ mx) (h2 : round2 mx = mx) :
    0 ≤ (partialCredit c o mx).1 ∧ (partialCredit c o mx).1 ≤ mx := by
  cases c with
  | none => simpa [partialCredit] using h0
  | some cl =>
    cases o with
    | none => simpa [partialCredit] using h0
    | some ol =>
      by_cases hlen : cl.length < 2
      · simpa [partialCredit, hlen] using h0
      · simp only [partialCredit, if_neg hlen]
        have hle : (pcLoop (cl.drop 1) (ol.drop 1) 1 0 0 "" "").1 ≤ cl.length - 1 := by
          have h := pcLoop_passed_le (cl.drop 1) (ol.drop 1) 1 0 0 "" ""
          simpa [List.length_drop] using h
        have htot : ¬ (cl.length - 1 = 0) := by omega
        have htpos : (0 : ℚ) < ((cl.length - 1 : ℕ) : ℚ) := by
          have : 0 < cl.length - 1 := by omega
          exact_mod_cast this
        simp only [ne_eq, htot, not_false_eq_true, if_true]
        constructor
        · apply round2_nonneg
          apply div_nonneg
          · exact mul_nonneg h0 (Nat.cast_nonneg _)
          · exact le_of_lt htpos
        · have hfrac : mx * ((pcLoop (cl.drop 1) (ol.drop 1) 1 0 0 "" "").1 : ℚ) /
              ((cl.length - 1 : ℕ) : ℚ) ≤ mx := by
            rw [div_le_iff₀ htpos]
            calc mx * ((pcLoop (cl.drop 1) (ol.drop 1) 1 0 0 "" "").1 : ℚ) ≤
                mx * ((cl.length - 1 : ℕ) : ℚ) := by
                  apply mul_le_mul_of_nonneg_left _ h0
                  exact_mod_cast hle
            _ = mx * ((cl.length - 1 : ℕ) : ℚ) := rfl
          calc round2 (mx * ((pcLoop (cl.drop 1) (ol.drop 1) 1 0 0 "" "").1 : ℚ) /
              ((cl.length - 1 : ℕ) : ℚ)) ≤ round2 mx := round2_le_round2 hfrac
          _ = mx := h2

lemma runOne_bounds (chip : String) (matchedHas : Bool) (proj : Project)
    (env : ChipEnv) (h0 : 0 ≤ proj.chipPts chip)
    (h2 : round2 (proj.chipPts chip) = proj.chipPts chip) :
    0 ≤ (runOne chip matchedHas proj env).1.points ∧
    (runOne chip matchedHas proj env).1.points ≤
      (runOne chip matchedHas proj env).1.max_points ∧
    (runOne chip matchedHas proj env).1.max_points = proj.chipPts chip := by
  have hq10 : proj.chipPts chip * (1/10) ≤ proj.chipPts chip := by linarith
  have hq15 : proj.chipPts chip * (15/100) ≤ proj.chipPts chip := by linarith
  have hq10n : 0 ≤ proj.chipPts chip * (1/10) := by linarith
  have hq15n : 0 ≤ proj.chipPts chip * (15/100) := by linarith
  cases matchedHas with
  | false => simp [runOne, h0]
  | true =>
    by_cases hb : (proj.file_ext == ".hdl" && env.isBuiltin) = true
    · simp [runOne, hb, h0]
    · have hb' : (proj.file_ext == ".hdl" && env.isBuiltin) = false := by
        simpa using hb
      cases ht : env.tstExists with
      | false => simp [runOne, hb', ht, h0]
      | true =>
        cases hs : env.sim with
        | raised msg => simp [runOne, hb', ht, hs, h0]
        | timedOut =>
          simp only [runOne, hb', ht, hs]
          by_cases hw : env.hasWork = true
          · simp only [hw, if_true]
            refine ⟨round2_nonneg hq10n, ?_, rfl⟩
            calc round2 (proj.chipPts chip * (1/10)) ≤ round2 (proj.chipPts chip) :=
              round2_le_round2 hq10
            _ = proj.chipPts chip := h2
          · simp only [hw]
            simp [h0]
        | completed out sbCmp sbOut =>
          simp only [runOne, hb', ht, hs]
          by_cases hsucc : successMarker out = true
          · simp [hsucc, h0]
          · have hsucc' : successMarker out = false := by simpa using hsucc
            by_cases hfail : compareFailMarker out = true
            · simp only [hsucc', Bool.false_eq_true, if_false, hfail, if_true]
              obtain ⟨hl, hr⟩ := partialCredit_bounds sbCmp sbOut (proj.chipPts chip) h0 h2
              cases hpc : partialCredit sbCmp sbOut (proj.chipPts chip) with
              | mk p rest =>
                rw [hpc] at hl hr
                simp [hl, hr]
            · have hfail' : compareFailMarker out = false := by simpa using hfail
              simp only [hsucc', Bool.false_eq_true, if_false, hfail']
              by_cases hw : env.hasWork = true
              · simp only [hw, if_true]
                refine ⟨round2_nonneg hq15n, ?_, rfl⟩
                calc round2 (proj.chipPts chip * (15/100)) ≤
                    round2 (proj.chipPts chip) := round2_le_round2 hq15
                _ = proj.chipPts chip := h2
              · simp only [hw]
                simp [h0]

-- ── Configuration facts (for C1) ─────────────────────────────

lemma mem_of_lookup_eq_some {l : List (String × ℚ)} {k : String} {v : ℚ}
    (h : l.lookup k = some v) : (k, v) ∈ l := by
  induction l with
  | nil => cases h
  | cons a t ih =>
    rcases a with ⟨k', v'⟩
    simp only [List.lookup] at h
    by_cases hk : (k == k') = true
    · simp only [hk] at h
      have hv : v' = v := by injection h
      have hkk : k = k' := by simpa using hk
      subst hv
      subst hkk
      exact List.mem_cons_self _ _
    · have hk' : (k == k') = false := by simpa using hk
      simp only [hk'] at h
      exact List.mem_cons_of_mem _ (ih h)

/-- All configured chip point values are nonnegative and stable under
two-decimal rounding. -/
def valsOk (l : List (String × ℚ)) : Prop :=
  ∀ kv ∈ l, 0 ≤ kv.2 ∧ round2 kv.2 = kv.2

lemma project1_vals : valsOk project1.chips := by
  intro kv hkv
  simp only [project1] at hkv
  fin_cases hkv <;> constructor <;> norm_num [round2, round_eq]

lemma project2_vals : valsOk project2.chips := by
  intro kv hkv
  simp only [project2] at hkv
  fin_cases hkv <;> constructor <;> norm_num [round2, round_eq]

lemma project3_vals : valsOk project3.chips := by
  intro kv hkv
  simp only [project3] at hkv
  fin_cases hkv <;> constructor <;> norm_num [round2, round_eq]

lemma project4_vals : valsOk project4.chips := by
  intro kv hkv
  simp only [project4] at hkv
  fin_cases hkv <;> constructor <;> norm_num [round2, round_eq]

lemma project5_vals : valsOk project5.chips := by
  intro kv hkv
  simp only [project5] at hkv
  fin_cases hkv <;> constructor <;> norm_num [round2, round_eq]

lemma PROJECTS_vals : ∀ p ∈ PROJECTS, valsOk p.2.chips := by
  intro p hp
  simp only [PROJECTS, List.mem_cons, List.not_mem_nil, or_false] at hp
  rcases hp with rfl | rfl | rfl | rfl | rfl
  · exact project1_vals
  · exact project2_vals
  · exact project3_vals
  · exact project4_vals
  · exact project5_vals

lemma PROJECTS_keys_nodup : ∀ p ∈ PROJECTS, (p.2.chips.map Prod.fst).Nodup := by
  intro p hp
  simp only [PROJECTS, List.mem_cons, List.not_mem_nil, or_false] at hp
  rcases hp with rfl | rfl | rfl | rfl | rfl <;> decide

lemma chipPts_ok (proj : Project) (hvals : valsOk proj.chips) (c : String) :
    0 ≤ proj.chipPts c ∧ round2 (proj.chipPts c) = proj.chipPts c := by
  unfold Project.chipPts
  cases hl : proj.chips.lookup c with
  | none =>
    constructor
    · norm_num
    · norm_num [round2, round_eq]
  | some v =>
    have := hvals (c, v) (mem_of_lookup_eq_some hl)
    simpa using this

lemma lookup_sum (l : List (String × ℚ)) (hnd : (l.map Prod.fst).Nodup) :
    (l.map fun kv => (l.lookup kv.1).getD 1).sum = (l.map Prod.snd).sum := by
  induction l with
  | nil => simp
  | cons a t ih =>
    rcases a with ⟨k, v⟩
    simp only [List.map_cons, List.nodup_cons] at hnd
    obtain ⟨hk, hnd'⟩ := hnd
    have h1 : (((k, v) :: t).lookup k).getD 1 = v := by
      simp [List.lookup]
    have h2 : (t.map fun kv => (((k, v) :: t).lookup kv.1).getD 1) =
        (t.map fun kv => (t.lookup kv.1).getD 1) := by
      apply List.map_congr_left
      intro kv hkv
      have hne : (kv.1 == k) = false := by
        have : k ≠ kv.1 := fun he => hk (he ▸ List.mem_map_of_mem Prod.fst hkv)
        simp [this.symm]
      simp [List.lookup, hne]
    simp only [List.map_cons, List.sum_cons, h1, h2, ih hnd']

lemma chipPts_sum (proj : Project) (hnd : (proj.chips.map Prod.fst).Nodup) :
    (proj.chipNames.map fun c => proj.chipPts c).sum =
      (proj.chips.map Prod.snd).sum := by
  unfold Project.chipNames
  rw [List.map_map]
  exact lookup_sum proj.chips hnd

lemma mainResult_invariants (env : GradeEnv) (proj : Project) (sn : String)
    (uid : ℕ) (zn : ZipNaming) (raw : List (String × String))
    (hvals : valsOk proj.chips)
    (hnd : (proj.chips.map Prod.fst).Nodup) :
    (mainResult env proj sn uid zn raw).total_earned =
      round2 ((((mainResult env proj sn uid zn raw).chips).map
        fun c => c.points).sum) ∧
    0 ≤ (mainResult env proj sn uid zn raw).total_earned ∧
    (mainResult env proj sn uid zn raw).total_earned ≤
      (mainResult env proj sn uid zn raw).total_possible ∧
    ∀ c ∈ (mainResult env proj sn uid zn raw).chips,
      0 ≤ c.points ∧ c.points ≤ c.max_points := by
  have hchips : (mainResult env proj sn uid zn raw).chips =
      proj.chipNames.map fun c =>
        (runOne c (dictMem (matchFiles raw proj.chipNames proj.file_ext).1 c) proj
          (env.chipEnv c)).1 := by
    show (mainRuns env proj raw).map Prod.fst = _
    unfold mainRuns
    rw [List.map_map]
    rfl
  have hone : ∀ c, 0 ≤ (runOne c (dictMem (matchFiles raw proj.chipNames
      proj.file_ext).1 c) proj (env.chipEnv c)).1.points ∧
      (runOne c (dictMem (matchFiles raw proj.chipNames proj.file_ext).1 c) proj
        (env.chipEnv c)).1.points ≤
      (runOne c (dictMem (matchFiles raw proj.chipNames proj.file_ext).1 c) proj
        (env.chipEnv c)).1.max_points ∧
      (runOne c (dictMem (matchFiles raw proj.chipNames proj.file_ext).1 c) proj
        (env.chipEnv c)).1.max_points = proj.chipPts c := fun c =>
    runOne_bounds c _ proj (env.chipEnv c) (chipPts_ok proj hvals c).1
      (chipPts_ok proj hvals c).2
  have hsum0 : 0 ≤ ((((mainResult env proj sn uid zn raw).chips).map
      fun c => c.points).sum) := by
    apply List.sum_nonneg
    intro x hx
    rw [hchips, List.map_map] at hx
    obtain ⟨c, _, rfl⟩ := List.mem_map.1 hx
    exact (hone c).1
  have hte : (mainResult env proj sn uid zn raw).total_earned =
      round2 ((((mainResult env proj sn uid zn raw).chips).map
        fun c => c.points).sum) := rfl
  refine ⟨hte, ?_, ?_, ?_⟩
  · rw [hte]
    exact round2_nonneg hsum0
  · rw [hte]
    have hle : ((((mainResult env proj sn uid zn raw).chips).map
        fun c => c.points).sum) ≤ (proj.chips.map Prod.snd).sum := by
      rw [hchips, List.map_map]
      calc ((proj.chipNames.map fun c =>
          (runOne c (dictMem (matchFiles raw proj.chipNames proj.file_ext).1 c)
            proj (env.chipEnv c)).1.points)).sum ≤
          ((proj.chipNames.map fun c => proj.chipPts c)).sum := by
            apply List.sum_le_sum
            intro c _
            have h := hone c
            calc (runOne c (dictMem (matchFiles raw proj.chipNames
                proj.file_ext).1 c) proj (env.chipEnv c)).1.points ≤ _ := h.2.1
            _ = proj.chipPts c := h.2.2
      _ = (proj.chips.map Prod.snd).sum := chipPts_sum proj hnd
    calc round2 ((((mainResult env proj sn uid zn raw).chips).map
        fun c => c.points).sum) ≤ round2 ((proj.chips.map Prod.snd).sum) :=
      round2_le_round2 hle
    _ = (mainResult env proj sn uid zn raw).total_possible := rfl
  · intro c hc
    rw [hchips] at hc
    obtain ⟨name, _, rfl⟩ := List.mem_map.1 hc
    exact ⟨(hone name).1, (hone name).2.1⟩

lemma emptyResult_invariants (proj : Project) (sn : String) (uid : ℕ)
    (zn : ZipNaming) (hvals : valsOk proj.chips) :
    (emptyResult proj sn uid zn).total_earned =
      round2 ((((emptyResult proj sn uid zn).chips).map fun c => c.points).sum) ∧
    0 ≤ (emptyResult proj sn uid zn).total_earned ∧
    (emptyResult proj sn uid zn).total_earned ≤
      (emptyResult proj sn uid zn).total_possible ∧
    ∀ c ∈ (emptyResult proj sn uid zn).chips,
      0 ≤ c.points ∧ c.points ≤ c.max_points := by
  have hsum : ((((emptyResult proj sn uid zn).chips).map fun c => c.points)).sum = 0 := by
    apply List.sum_eq_zero
    intro x hx
    simp only [emptyResult, List.map_map] at hx
    obtain ⟨name, _, rfl⟩ := List.mem_map.1 hx
    rfl
  refine ⟨?_, le_rfl, ?_, ?_⟩
  · show (0 : ℚ) = _
    rw [hsum, round2_zero]
  · show (0 : ℚ) ≤ round2 ((proj.chips.map Prod.snd).sum)
    apply round2_nonneg
    apply List.sum_nonneg
    intro x hx
    obtain ⟨kv, hkv, rfl⟩ := List.mem_map.1 hx
    exact (hvals kv hkv).1
  · intro c hc
    obtain ⟨name, _, rfl⟩ := List.mem_map.1 hc
    exact ⟨le_rfl, (chipPts_ok proj hvals name).1⟩

/-- **C1**: every `GradingResult` a successful `grade_student` run returns
satisfies `total_earned = round(sum of chip points, 2)`,
`0 ≤ total_earned ≤ total_possible`, and every `ChipResult`'s points lie in
`[0, max_points]`.  (Both the no-files early path and the main path are
covered, for every configured project.) -/
theorem grading_result_invariants (env : GradeEnv) (sn : String) (uid : ℕ)
    (pn : Option ℕ) (zf : String) (r : GradingResult) (tr : List FxEvent)
    (h : gradeStudent env sn uid pn zf = (Except.ok r, tr)) :
    r.total_earned = round2 ((r.chips.map fun c => c.points).sum) ∧
    0 ≤ r.total_earned ∧ r.total_earned ≤ r.total_possible ∧
    ∀ c ∈ r.chips, 0 ≤ c.points ∧ c.points ≤ c.max_points := by
  simp only [gradeStudent, extractZip] at h
  cases hp : getProject pn with
  | error e =>
    simp only [hp] at h
    simp at h
  | ok proj =>
    simp only [hp] at h
    obtain ⟨hproj2, hmem⟩ := getProject_facts pn proj hp
    have hvals : valsOk proj.chips := PROJECTS_vals _ hmem
    have hnd : (proj.chips.map Prod.fst).Nodup := PROJECTS_keys_nodup _ hmem
    cases hz : env.zipOpenError with
    | some e =>
      simp only [hz] at h
      simp at h
    | none =>
      simp only [hz] at h
      have hzn : checkZipNaming zf sn proj.number = Except.ok
          (checkZipNamingBody proj.zip_pattern zf sn proj.number) := by
        unfold checkZipNaming
        rw [hproj2]
        rfl
      simp only [hzn] at h
      by_cases hr : (if env.badZip then [] else env.files).isEmpty
      · simp only [hr, if_true] at h
        have e1 : Except.ok (emptyResult proj sn uid
            (checkZipNamingBody proj.zip_pattern zf sn proj.number)) =
            Except.ok r := congrArg Prod.fst h
        have e1' : emptyResult proj sn uid
            (checkZipNamingBody proj.zip_pattern zf sn proj.number) = r := by
          injection e1
        rw [← e1']
        exact emptyResult_invariants proj sn uid _ hvals
      · simp only [hr, if_false] at h
        have e1 : Except.ok (mainResult env proj sn uid
            (checkZipNamingBody proj.zip_pattern zf sn proj.number)
            (if env.badZip then [] else env.files)) = Except.ok r :=
          congrArg Prod.fst h
        have e1' : mainResult env proj sn uid
            (checkZipNamingBody proj.zip_pattern zf sn proj.number)
            (if env.badZip then [] else env.files) = r := by
          injection e1
        rw [← e1']
        exact mainResult_invariants env proj sn uid _ _ hvals hnd

/-- Witness for C1 at a concrete corrupt-archive run of project 4 (the
all-`missing` early path). -/
theorem grading_result_invariants_witness :
    (emptyResult project4 "S" 1
      (checkZipNamingBody project4.zip_pattern "x.zip" "S" 4)).total_earned =
      round2 ((((emptyResult project4 "S" 1
        (checkZipNamingBody project4.zip_pattern "x.zip" "S" 4)).chips).map
          fun c => c.points).sum) ∧
    0 ≤ (emptyResult project4 "S" 1
      (checkZipNamingBody project4.zip_pattern "x.zip" "S" 4)).total_earned ∧
    (emptyResult project4 "S" 1
      (checkZipNamingBody project4.zip_pattern "x.zip" "S" 4)).total_earned ≤
      (emptyResult project4 "S" 1
        (checkZipNamingBody project4.zip_pattern "x.zip" "S" 4)).total_possible ∧
    ∀ c ∈ (emptyResult project4 "S" 1
      (checkZipNamingBody project4.zip_pattern "x.zip" "S" 4)).chips,
      0 ≤ c.points ∧ c.points ≤ c.max_points :=
  grading_result_invariants
    ⟨none, true, [], fun _ => ⟨false, false, false, false, [], SimCall.timedOut⟩⟩
    "S" 1 (some 4) "x.zip" _ _ rfl

-- ── Supporting fact for C7: the leak path is the only gap ────

lemma runOne_trace (chip : String) (matchedHas : Bool) (proj : Project)
    (env : ChipEnv) :
    (runOne chip matchedHas proj env).2 = [] ∨
    (runOne chip matchedHas proj env).2 =
      [FxEvent.created ("c_" ++ chip), FxEvent.removed ("c_" ++ chip)] := by
  unfold runOne
  split
  · left
    rfl
  · split
    · left
      rfl
    · split
      · left
        rfl
      · right
        rfl

lemma mainTrace_balanced (env : GradeEnv) (proj : Project)
    (raw : List (String × String)) (d : String)
    (h : FxEvent.created d ∈ mainTrace env proj raw) :
    FxEvent.removed d ∈ mainTrace env proj raw := by
  unfold mainTrace at h ⊢
  rw [List.mem_flatten] at h ⊢
  obtain ⟨l, hl, hd⟩ := h
  refine ⟨l, hl, ?_⟩
  rw [List.mem_map] at hl
  obtain ⟨run, hrun, rfl⟩ := hl
  unfold mainRuns at hrun
  rw [List.mem_map] at hrun
  obtain ⟨c, _, rfl⟩ := hrun
  rcases runOne_trace c (dictMem (matchFiles raw proj.chipNames proj.file_ext).1 c)
      proj (env.chipEnv c) with ht | ht
  · rw [ht] at hd
    cases hd
  · rw [ht] at hd ⊢
    simp only [List.mem_cons, List.mem_singleton] at hd
    rcases hd with h1 | h1
    · have hdc : d = "c_" ++ c := by simpa using h1
      subst hdc
      simp
    · rcases h1 with h2 | h2
      · simp at h2
      · cases h2

/-- When opening the archive does not raise (the only case of
`temp_dir_leak_on_unreadable_zip` excluded), every temporary directory the
run creates — the extraction directory and each per-component sandbox — is
also removed before `grade_student` returns, on the early path, the main
path, and the naming-check exception path alike. -/
lemma trace_balanced_when_zip_opens (env : GradeEnv) (sn : String) (uid : ℕ)
    (pn : Option ℕ) (zf : String) (out : Except String GradingResult)
    (tr : List FxEvent) (hz : env.zipOpenError = none)
    (h : gradeStudent env sn uid pn zf = (out, tr)) :
    ∀ d, FxEvent.created d ∈ tr → FxEvent.removed d ∈ tr := by
  simp only [gradeStudent, extractZip] at h
  cases hp : getProject pn with
  | error e =>
    simp only [hp] at h
    have htr : tr = [] := (congrArg Prod.snd h).symm
    subst htr
    intro d hd
    cases hd
  | ok proj =>
    simp only [hp, hz] at h
    cases hn : checkZipNaming zf sn proj.number with
    | error e =>
      simp only [hn] at h
      have htr : tr = [FxEvent.created "n2t_0"] ++ [FxEvent.removed "n2t_0"] :=
        (congrArg Prod.snd h).symm
      subst htr
      intro d hd
      simp only [List.singleton_append, List.mem_cons, List.mem_singleton] at hd
      have hd2 : d = "n2t_0" := by
        rcases hd with h1 | h1
        · simpa using h1
        · simp at h1
      subst hd2
      simp
    | ok zn =>
      simp only [hn] at h
      by_cases hr : (if env.badZip then [] else env.files).isEmpty
      · simp only [hr, if_true] at h
        have htr : tr = [FxEvent.created "n2t_0"] ++ [FxEvent.removed "n2t_0"] :=
          (congrArg Prod.snd h).symm
        subst htr
        intro d hd
        simp only [List.singleton_append, List.mem_cons, List.mem_singleton] at hd
        have hd2 : d = "n2t_0" := by
          rcases hd with h1 | h1
          · simpa using h1
          · simp at h1
        subst hd2
        simp
      · simp only [hr, if_false] at h
        have htr : tr = [FxEvent.created "n2t_0"] ++
            mainTrace env proj (if env.badZip then [] else env.files) ++
            [FxEvent.removed "n2t_0"] := (congrArg Prod.snd h).symm
        subst htr
        intro d hd
        rcases List.mem_append.1 hd with h1 | h1
        · rcases List.mem_append.1 h1 with h2 | h2
          · have hd2 : d = "n2t_0" := by
              rw [List.mem_singleton] at h2
              simpa using h2
            subst hd2
            exact List.mem_append_right _ (List.mem_singleton_self _)
          · have hmem := mainTrace_balanced env proj _ d h2
            exact List.mem_append_left _ (List.mem_append_right _ hmem)
        · rw [List.mem_singleton] at h1
          simp at h1
